import Mathlib

/-!
Verification development for the garment-remixing network pipeline
(`improved_network.py`): taxonomy parsing, CSV row ingestion into
per-category accumulators, and graph construction with a similarity-edge
fallback pass.

Modelling conventions:
* Python strings are `List Char` (`PyStr`); `str.strip` is `trimChars`,
  `str.split(c)` is `splitChar c`.
* `int(s)` is `pyInt` (trimmed optional sign followed by decimal digits);
  `None`/exceptions become `Option`.
* Python dicts are association lists with insert-or-update (`updD`) keeping
  insertion order, exactly like CPython dicts; `defaultdict(list)` access is
  `lookupD · |>.getD default`.
* Python floats are modelled as exact rationals (`ℚ`).
* `nx.is_connected` on the 0-node graph raises `NetworkXPointlessConcept`;
  `build_graph` therefore returns `Option Graph`, with `none` for the raise.
-/

namespace GarmentNet

abbrev PyStr := List Char

/-- Python `str.strip()`: drop whitespace from both ends. -/
def trimChars (s : PyStr) : PyStr :=
  ((s.dropWhile Char.isWhitespace).reverse.dropWhile Char.isWhitespace).reverse

/-- Python `str.split(sep)` for a single-character separator: split on every
occurrence, keeping empty pieces. -/
def splitChar (sep : Char) : PyStr → List PyStr
  | [] => [[]]
  | c :: rest =>
    let r := splitChar sep rest
    if c = sep then [] :: r
    else
      match r with
      | h :: t => (c :: h) :: t
      | [] => [[c]]

/-- Value of an all-digit character list. -/
def digitsVal (l : PyStr) : Nat :=
  l.foldl (fun a c => 10 * a + (c.toNat - 48)) 0

/-- Python `int(s)` on a string: strip, optional sign, then one or more
decimal digits (underscore digit-group literals are not modelled). Returns
`none` where Python raises `ValueError`. -/
def pyInt (s : PyStr) : Option Int :=
  let t := trimChars s
  match t with
  | '+' :: rest =>
    if rest ≠ [] ∧ rest.all Char.isDigit then some (digitsVal rest : Int) else none
  | '-' :: rest =>
    if rest ≠ [] ∧ rest.all Char.isDigit then some (-(digitsVal rest : Int)) else none
  | _ =>
    if t ≠ [] ∧ t.all Char.isDigit then some (digitsVal t : Int) else none

/-- Python-dict lookup on an association list. -/
def lookupD [DecidableEq α] (m : List (α × β)) (k : α) : Option β :=
  (m.find? (fun kv => kv.1 = k)).map (·.2)

/-- Python-dict write `m[k] = v`: update in place if the key exists (CPython
keeps the key's position), otherwise append. -/
def updD [DecidableEq α] (m : List (α × β)) (k : α) (v : β) : List (α × β) :=
  if m.any (fun kv => kv.1 = k) then
    m.map (fun kv => if kv.1 = k then (k, v) else kv)
  else
    m ++ [(k, v)]

/-! ## Taxonomy parser (`create_taxonomy`, improved_network.py lines 10-28) -/

/-- One iteration of the `create_taxonomy` loop body on a raw line:
strip the line; if non-blank and longer than 4 characters, `int(line[0])`
(a single character parses iff it is a decimal digit) and take
`line[4:].strip()` as the category name; otherwise (or on parse failure)
contribute nothing. -/
def parseTaxLine (raw : PyStr) : Option (Int × PyStr) :=
  let line := trimChars raw
  if line ≠ [] ∧ line.length > 4 then
    match line with
    | c :: _ => if c.isDigit then some (((c.toNat : Int) - 48), trimChars (line.drop 4)) else none
    | [] => none
  else none

/-- `create_taxonomy` after the input has been split into lines. -/
def create_taxonomy_lines (lines : List PyStr) : List (Int × PyStr) :=
  lines.foldl
    (fun out line =>
      match parseTaxLine line with
      | some (k, v) => updD out k v
      | none => out)
    []

/-- `create_taxonomy(taxonomy_str)`: `taxonomy_str.strip().split('\n')`, then
per-line parsing into an (insertion-ordered) dict. -/
def create_taxonomy (s : PyStr) : List (Int × PyStr) :=
  create_taxonomy_lines (splitChar '\n' (trimChars s))

/-! ## Row ingestion (`create_network_graph`, improved_network.py lines 42-123)

The file/`csv.DictReader` layer is out of scope: ingestion is modelled on a
list of already-read rows, each carrying the seven required columns as raw
strings. -/

structure Row where
  post_number : PyStr
  caption : PyStr
  url : PyStr
  likes : PyStr
  number_of_hashtags : PyStr
  types_of_patterns : PyStr
  taxonomy : PyStr
deriving Repr, DecidableEq

/-- The per-post record stored in `post_data`. -/
structure PostRec where
  caption : PyStr
  url : PyStr
  likes : Int
  hashtags : Int
  clusters : List Int
deriving Repr, DecidableEq

/-- The per-category accumulator stored in `cluster_stats` (parallel lists). -/
structure CStats where
  likes : List Int
  hashtags : List Int
  posts : List Int
deriving Repr, DecidableEq

/-- The mutable state of `create_network_graph`'s reading loop.
`tax_parses` instruments how many times `create_taxonomy` has been invoked
(line 79 of the source); it is not data the program stores. -/
structure IngestState where
  taxonomy : List (Int × PyStr)
  posts_by_cluster : List (Int × List Int)
  cluster_stats : List (Int × CStats)
  post_data : List (Int × PostRec)
  tax_parses : Nat
deriving Repr, DecidableEq

def emptyStats : CStats := ⟨[], [], []⟩

/-- `posts_by_cluster[c].append(p)` on a `defaultdict(list)`. -/
def pbcAppend (m : List (Int × List Int)) (c : Int) (p : Int) : List (Int × List Int) :=
  updD m c (((lookupD m c).getD []) ++ [p])

/-- `cluster_stats[c]['likes'].append(l)` etc. on the stats defaultdict. -/
def statsAppend (m : List (Int × CStats)) (c : Int) (l h p : Int) : List (Int × CStats) :=
  let st := (lookupD m c).getD emptyStats
  updD m c ⟨st.likes ++ [l], st.hashtags ++ [h], st.posts ++ [p]⟩

/-- Lines 101-105: for every resolved cluster id, append the post id, likes
and hashtag count to that cluster's accumulators. -/
def accumulate (st : IngestState) (p l h : Int) (clusters : List Int) : IngestState :=
  clusters.foldl
    (fun st c =>
      { st with
        posts_by_cluster := pbcAppend st.posts_by_cluster c p
        cluster_stats := statsAppend st.cluster_stats c l h p })
    st

/-- Lines 84-90: the comma branch of cluster parsing — split on commas and
keep every token that parses as an integer (each token is stripped;
`pyInt` strips internally). -/
def parseClusters (cstr : PyStr) : List Int :=
  (splitChar ',' cstr).filterMap pyInt

/-- One iteration of the row loop (lines 58-110).  Order is the source's:
parse the three required integers (failure skips the whole row), store the
post record with an empty cluster list (line 69), parse the taxonomy if the
post number is 1 (lines 78-80), then resolve cluster membership — the comma
branch tolerates bad tokens, while a bad single-value field `continue`s,
leaving the already-stored record in place (line 96). -/
def processRow (st : IngestState) (r : Row) : IngestState :=
  match pyInt r.post_number, pyInt r.likes, pyInt r.number_of_hashtags with
  | some p, some l, some h =>
    let cstr := trimChars r.types_of_patterns
    let st1 := { st with post_data := updD st.post_data p ⟨r.caption, r.url, l, h, []⟩ }
    let st2 :=
      if p = 1 then
        { st1 with taxonomy := create_taxonomy r.taxonomy, tax_parses := st1.tax_parses + 1 }
      else st1
    if cstr.contains ',' then
      let clusters := parseClusters cstr
      let st3 := { st2 with post_data := updD st2.post_data p ⟨r.caption, r.url, l, h, clusters⟩ }
      accumulate st3 p l h clusters
    else
      match pyInt cstr with
      | some c =>
        let st3 := { st2 with post_data := updD st2.post_data p ⟨r.caption, r.url, l, h, [c]⟩ }
        accumulate st3 p l h [c]
      | none => st2
  | _, _, _ => st

def initState : IngestState := ⟨[], [], [], [], 0⟩

/-- `create_network_graph` on a list of rows (the CSV body, in file order). -/
def create_network_graph (rows : List Row) : IngestState :=
  rows.foldl processRow initState

/-- The cluster list a row resolves to (what line 98 stores): the comma
branch's partial parse, the single value, or `[]` when the single value fails
(the record keeps the empty list written at line 69). -/
def resolvedClusters (r : Row) : List Int :=
  let cstr := trimChars r.types_of_patterns
  if cstr.contains ',' then parseClusters cstr
  else
    match pyInt cstr with
    | some c => [c]
    | none => []

/-- The three structurally required integer fields of a row. -/
def parsedInts (r : Row) : Option (Int × Int × Int) :=
  match pyInt r.post_number, pyInt r.likes, pyInt r.number_of_hashtags with
  | some p, some l, some h => some (p, l, h)
  | _, _, _ => none

/-- The final `post_data` record a successfully parsed row writes. -/
def recordOf (r : Row) (l h : Int) : PostRec :=
  ⟨r.caption, r.url, l, h, resolvedClusters r⟩

/-- Does this row trigger the taxonomy parse at line 79 (required integers
parse and post number is 1)? -/
def qual1 (r : Row) : Bool :=
  match parsedInts r with
  | some plh => plh.1 = 1
  | none => false

/-- Does this row write the `post_data` entry for post number `p`? -/
def keyRow (r : Row) (p : Int) : Bool :=
  match parsedInts r with
  | some plh => plh.1 = p
  | none => false

/-- The `post_data` record a row leaves behind, if any. -/
def rowRecord (r : Row) : Option PostRec :=
  (parsedInts r).map (fun plh => recordOf r plh.2.1 plh.2.2)

/-- The post-id entries a row appends to category `c`'s post list (one per
occurrence of `c` in the row's resolved cluster list). -/
def rowPosts (r : Row) (c : Int) : List Int :=
  match parsedInts r with
  | some plh => List.replicate ((resolvedClusters r).count c) plh.1
  | none => []

/-- The likes entries a row appends to category `c`'s likes list. -/
def rowLikes (r : Row) (c : Int) : List Int :=
  match parsedInts r with
  | some plh => List.replicate ((resolvedClusters r).count c) plh.2.1
  | none => []

/-- The hashtag-count entries a row appends to category `c`'s hashtags list. -/
def rowHashtags (r : Row) (c : Int) : List Int :=
  match parsedInts r with
  | some plh => List.replicate ((resolvedClusters r).count c) plh.2.2
  | none => []

/-- A row whose single-valued category field does not parse as an integer. -/
def c2row : Row :=
  ⟨"5".data, "cap".data, "url".data, "10".data, "2".data, "abc".data, "".data⟩

/-- First of two rows that both carry post number 1 (differing taxonomy). -/
def c9row1 : Row :=
  ⟨"1".data, "cap1".data, "url1".data, "5".data, "2".data, "1".data, "1. - Alpha".data⟩

/-- Second row with post number 1; its taxonomy text differs from the first. -/
def c9row2 : Row :=
  ⟨"1".data, "cap2".data, "url2".data, "7".data, "3".data, "1".data, "1. - Beta".data⟩

/-- Taxonomy-carrying first row (post 1, category 3). -/
def c10row1 : Row :=
  ⟨"1".data, "capA".data, "urlA".data, "5".data, "1".data, "3".data, "3. - Gamma".data⟩

/-- A row for post number 7 in category 3. -/
def c10row2 : Row :=
  ⟨"7".data, "capB".data, "urlB".data, "10".data, "1".data, "3".data, "".data⟩

/-- A second row for the same post number 7 in the same category 3. -/
def c10row3 : Row :=
  ⟨"7".data, "capC".data, "urlC".data, "20".data, "2".data, "3".data, "".data⟩

/-! ## Graph builder (`build_graph`, improved_network.py lines 126-205) -/

/-- A node with the attributes of `G.add_node` (lines 149-156). -/
structure Node where
  id : Int
  label : PyStr
  posts_count : Nat
  total_likes : Int
  avg_likes : ℚ
  total_hashtags : Int
  avg_hashtags : ℚ
  posts : List Int
deriving Repr, DecidableEq

/-- A networkx edge: endpoints, `weight`, and the optional `shared_posts` /
`similarity` attributes (the `edge_type='similarity'` tag always accompanies
`similarity` and is not modelled separately). -/
structure Edge where
  a : Int
  b : Int
  weight : ℚ
  shared : Option (List Int)
  similarity : Option ℚ
deriving Repr, DecidableEq

structure Graph where
  nodes : List Node
  edges : List Edge
deriving Repr, DecidableEq

/-- Does edge `e` connect the unordered pair `{u, v}`? -/
def connectsB (e : Edge) (u v : Int) : Bool :=
  (e.a = u ∧ e.b = v) ∨ (e.a = v ∧ e.b = u)

/-- `G.has_edge(u, v)`. -/
def adjacentB (es : List Edge) (u v : Int) : Bool :=
  es.any (fun e => connectsB e u v)

/-- networkx `G.add_edge(u, v, weight=w, shared_posts=s)`: update the
existing edge's given attributes, or append a fresh edge. -/
def addSharedEdge (es : List Edge) (u v : Int) (w : ℚ) (s : List Int) : List Edge :=
  if adjacentB es u v then
    es.map (fun e => if connectsB e u v then { e with weight := w, shared := some s } else e)
  else es ++ [⟨u, v, w, some s, none⟩]

/-- networkx `G.add_edge(u, v, weight=w, similarity=q, edge_type='similarity')`. -/
def addSimEdge (es : List Edge) (u v : Int) (w : ℚ) (q : ℚ) : List Edge :=
  if adjacentB es u v then
    es.map (fun e => if connectsB e u v then { e with weight := w, similarity := some q } else e)
  else es ++ [⟨u, v, w, none, some q⟩]

/-- `for i, c1 in enumerate(l): for c2 in l[i+1:]`: all ordered pairs with the
first component strictly earlier. -/
def allPairs : List α → List (α × α)
  | [] => []
  | x :: xs => xs.map (fun y => (x, y)) ++ allPairs xs

/-- `posts_by_cluster[c]` (defaultdict read). -/
def pbcGet (pbc : List (Int × List Int)) (c : Int) : List Int :=
  (lookupD pbc c).getD []

/-- `set(posts1).intersection(set(posts2))` as a duplicate-free list. -/
def interList (p1 p2 : List Int) : List Int :=
  p1.dedup.filter (fun x => x ∈ p2)

/-- `cluster_stats[c]` (defaultdict read). -/
def statsGet (stats : List (Int × CStats)) (c : Int) : CStats :=
  (lookupD stats c).getD emptyStats

/-- Lines 137-161: one node per taxonomy category that has posts, in
taxonomy insertion order, carrying the aggregate statistics. -/
def mkNode (pbc : List (Int × List Int)) (stats : List (Int × CStats))
    (cid : Int) (name : PyStr) : Node :=
  let posts := pbcGet pbc cid
  let st := statsGet stats cid
  let total_likes := st.likes.sum
  let avg_likes : ℚ := if st.likes ≠ [] then (total_likes : ℚ) / st.likes.length else 0
  let total_hashtags := st.hashtags.sum
  let avg_hashtags : ℚ := if st.hashtags ≠ [] then (total_hashtags : ℚ) / st.hashtags.length else 0
  ⟨cid, name, posts.length, total_likes, avg_likes, total_hashtags, avg_hashtags, posts⟩

def graphNodes (tax : List (Int × PyStr)) (pbc : List (Int × List Int))
    (stats : List (Int × CStats)) : List Node :=
  tax.filterMap (fun kv =>
    if (lookupD pbc kv.1).isSome then some (mkNode pbc stats kv.1 kv.2) else none)

/-- Lines 166-179: the shared-post pass over all earlier/later node pairs. -/
def directPass (ids : List Int) (pbc : List (Int × List Int)) : List Edge :=
  (allPairs ids).foldl
    (fun es q =>
      let s := interList (pbcGet pbc q.1) (pbcGet pbc q.2)
      if s.isEmpty then es else addSharedEdge es q.1 q.2 (s.length : ℚ) s)
    []

/-- `G.nodes[c]['avg_likes']`. -/
def nodeAvg (nodes : List Node) (c : Int) : ℚ :=
  ((nodes.find? (fun n => n.id = c)).map (·.avg_likes)).getD 0

/-- Line 195: `similarity = 1 - abs(avg1 - avg2) / max(avg1, avg2, 1)`. -/
def simScore (a1 a2 : ℚ) : ℚ :=
  1 - |a1 - a2| / max (max a1 a2) 1

/-- Lines 185-201: the connectivity-repair pass — for each node pair without
an existing edge, add a similarity edge when the score strictly exceeds the
0.7 threshold. -/
def simPass (ids : List Int) (nodes : List Node) (es0 : List Edge) : List Edge :=
  (allPairs ids).foldl
    (fun es q =>
      if adjacentB es q.1 q.2 then es
      else
        let s := simScore (nodeAvg nodes q.1) (nodeAvg nodes q.2)
        if s > 7 / 10 then addSimEdge es q.1 q.2 (1 / 2) s else es)
    es0

/-- One expansion step of reachability: adjoin every node adjacent to the
current set. -/
def expandReach (ids : List Int) (es : List Edge) (s : List Int) : List Int :=
  s ++ ids.filter (fun v => ¬ v ∈ s ∧ s.any (fun u => adjacentB es u v))

def iterExpand (ids : List Int) (es : List Edge) : Nat → List Int → List Int
  | 0, s => s
  | n + 1, s => iterExpand ids es n (expandReach ids es s)

/-- `nx.is_connected(G)` on a graph with at least one node: every node is
reachable from the first (|ids| expansion rounds reach everything reachable).
The 0-node case — where networkx raises — is `true` here and handled by the
caller. -/
def isConnB (ids : List Int) (es : List Edge) : Bool :=
  match ids with
  | [] => true
  | v :: _ => ids.all (fun w => w ∈ iterExpand ids es ids.length [v])

/-- `build_graph(taxonomy, posts_by_cluster, cluster_stats)` (lines 126-205).
`none` models the `NetworkXPointlessConcept` exception that `nx.is_connected`
raises on the 0-node graph at line 182 (evaluated before `len(G.nodes()) > 1`
because `and` short-circuits left to right). -/
def build_graph (tax : List (Int × PyStr)) (pbc : List (Int × List Int))
    (stats : List (Int × CStats)) : Option Graph :=
  let nodes := graphNodes tax pbc stats
  let ids := nodes.map (·.id)
  let dEdges := directPass ids pbc
  match nodes with
  | [] => none
  | _ :: _ =>
    if isConnB ids dEdges = false ∧ 1 < ids.length then
      some ⟨nodes, simPass ids nodes dEdges⟩
    else
      some ⟨nodes, dEdges⟩

def nodeIds (G : Graph) : List Int := G.nodes.map (·.id)

/-- The node-id list `clusters = list(G.nodes())` (line 166). -/
def graphIds (tax : List (Int × PyStr)) (pbc : List (Int × List Int))
    (stats : List (Int × CStats)) : List Int :=
  (graphNodes tax pbc stats).map (·.id)

/-- Does the ordered pair `q` denote the unordered pair `{u, v}`? -/
def orientB (q : Int × Int) (u v : Int) : Bool :=
  (q.1 = u ∧ q.2 = v) ∨ (q.1 = v ∧ q.2 = u)

/-- The direct edge the shared-post pass produces for a pair, if any. -/
def dirEdge (pbc : List (Int × List Int)) (q : Int × Int) : Option Edge :=
  let s := interList (pbcGet pbc q.1) (pbcGet pbc q.2)
  if s.isEmpty then none else some ⟨q.1, q.2, (s.length : ℚ), some s, none⟩

/-- The similarity edge the repair pass produces for a pair, if any, given
the edge set `es` present when the pass started. -/
def simEdge (nodes : List Node) (es : List Edge) (q : Int × Int) : Option Edge :=
  if adjacentB es q.1 q.2 then none
  else
    let s := simScore (nodeAvg nodes q.1) (nodeAvg nodes q.2)
    if s > 7 / 10 then some ⟨q.1, q.2, 1 / 2, none, some s⟩ else none

/-- Well-formedness of an ingestion-produced `posts_by_cluster`: every stored
value is a non-empty post list (keys are only ever created by appending). -/
def PbcWF (m : List (Int × List Int)) : Prop :=
  ∀ c l, lookupD m c = some l → l ≠ []

/-- A taxonomy with one category and no posts anywhere. -/
def c1tax : List (Int × PyStr) := [(1, "A".data)]

/-- Two-category taxonomy for the disconnected-repair example. -/
def c6tax : List (Int × PyStr) := [(1, "A".data), (2, "B".data)]

/-- Categories 1 and 2 with disjoint posts. -/
def c6pbc : List (Int × List Int) := [(1, [1]), (2, [2])]

/-- Average likes 100 vs 1000 (similarity 1/10, below threshold). -/
def c6stats : List (Int × CStats) := [(1, ⟨[100], [1], [1]⟩), (2, ⟨[1000], [1], [2]⟩)]

/-- The graph the builder returns on the c6 example: two nodes, no edges. -/
def c6G : Graph := ⟨graphNodes c6tax c6pbc c6stats, []⟩

/-- Two-category taxonomy whose categories share post 1 (connected case). -/
def c8tax : List (Int × PyStr) := [(1, "A".data), (2, "B".data)]

/-- Categories 1 and 2 both contain post 1. -/
def c8pbc : List (Int × List Int) := [(1, [1]), (2, [1])]

/-- Stats for the shared-post example. -/
def c8stats : List (Int × CStats) := [(1, ⟨[10], [1], [1]⟩), (2, ⟨[10], [1], [1]⟩)]

/-- The graph built from the shared-post example (direct edges only). -/
def c8G : Graph :=
  ⟨graphNodes c8tax c8pbc c8stats, directPass (graphIds c8tax c8pbc c8stats) c8pbc⟩

/-- Two nodes with equal (zero) average likes, for the repair-pass witness. -/
def c5nodes : List Node :=
  [⟨1, "A".data, 1, 0, 0, 0, 0, [1]⟩, ⟨2, "B".data, 1, 0, 0, 0, 0, [2]⟩]

/-- A row whose category (5) is not in its own taxonomy: every taxonomy
category ends up with zero posts. -/
def c7row : Row :=
  ⟨"1".data, "c".data, "u".data, "10".data, "2".data, "5".data, "1. - A\n2. - B".data⟩

/-- A row in category 1 with a two-category taxonomy (category 2 unused). -/
def c7okrow : Row :=
  ⟨"1".data, "c".data, "u".data, "10".data, "2".data, "1".data, "1. - A\n2. - B".data⟩

/-- The graph built from `[c7okrow]`: one node, no edges. -/
def c7G : Graph :=
  ⟨graphNodes (create_network_graph [c7okrow]).taxonomy
      (create_network_graph [c7okrow]).posts_by_cluster
      (create_network_graph [c7okrow]).cluster_stats, []⟩

/-! ## Lemmas: association-list dictionaries -/

@[simp]
theorem lookupD_nil [DecidableEq α] (k : α) : lookupD ([] : List (α × β)) k = none := rfl

@[simp]
theorem lookupD_cons [DecidableEq α] (a : α) (b : β) (m : List (α × β)) (k : α) :
    lookupD ((a, b) :: m) k = if a = k then some b else lookupD m k := by
  by_cases h : a = k <;> simp [lookupD, List.find?_cons, h]

theorem lookupD_append [DecidableEq α] (m m' : List (α × β)) (k : α) :
    lookupD (m ++ m') k = ((lookupD m k).orElse fun _ => lookupD m' k) := by
  induction m with
  | nil => simp
  | cons kv t ih =>
    obtain ⟨a, b⟩ := kv
    by_cases h : a = k <;> simp [h, ih]

theorem lookupD_eq_none_of_not_any [DecidableEq α] {m : List (α × β)} {k : α}
    (h : (m.any fun kv => kv.1 = k) = false) : lookupD m k = none := by
  induction m with
  | nil => rfl
  | cons kv t ih =>
    simp only [List.any_cons, Bool.or_eq_false_iff] at h
    obtain ⟨a, b⟩ := kv
    have ha : ¬ a = k := by simpa using h.1
    simp [ha, ih h.2]

theorem lookupD_map_upd [DecidableEq α] (m : List (α × β)) (k k' : α) (v : β) :
    lookupD (m.map fun kv => if kv.1 = k then (k, v) else kv) k' =
      if k = k' then (if (m.any fun kv => kv.1 = k) = true then some v else lookupD m k')
      else lookupD m k' := by
  induction m with
  | nil => by_cases h : k = k' <;> simp [h]
  | cons kv t ih =>
    obtain ⟨a, b⟩ := kv
    simp only [List.map_cons, List.any_cons]
    by_cases ha : a = k
    · subst ha
      rw [if_pos rfl]
      by_cases hkk : a = k'
      · subst hkk
        simp
      · rw [lookupD_cons, if_neg hkk, ih]
        simp [hkk]
    · rw [if_neg ha]
      have hdec : (decide (a = k) : Bool) = false := by simp [ha]
      by_cases ha2 : a = k'
      · have hkk : ¬ k = k' := fun hc => ha (ha2.trans hc.symm)
        rw [lookupD_cons, if_pos ha2, if_neg hkk, lookupD_cons, if_pos ha2]
      · rw [lookupD_cons, if_neg ha2, ih]
        simp only [hdec, Bool.false_or]
        simp [ha2]

theorem lookupD_updD [DecidableEq α] (m : List (α × β)) (k k' : α) (v : β) :
    lookupD (updD m k v) k' = if k = k' then some v else lookupD m k' := by
  unfold updD
  by_cases h : (m.any fun kv => kv.1 = k) = true
  · rw [if_pos h, lookupD_map_upd]
    by_cases hkk : k = k'
    · rw [if_pos hkk, if_pos h, if_pos hkk]
    · rw [if_neg hkk, if_neg hkk]
  · rw [Bool.not_eq_true] at h
    rw [if_neg (by simp [h]), lookupD_append]
    by_cases hkk : k = k'
    · subst hkk
      simp [lookupD_eq_none_of_not_any h]
    · cases hl : lookupD m k' <;> simp [hkk, hl, Option.orElse]

@[simp]
theorem lookupD_updD_self [DecidableEq α] (m : List (α × β)) (k : α) (v : β) :
    lookupD (updD m k v) k = some v := by
  simp [lookupD_updD]

@[simp]
theorem lookupD_updD_ne [DecidableEq α] (m : List (α × β)) (k k' : α) (v : β)
    (hk : k' ≠ k) : lookupD (updD m k v) k' = lookupD m k' := by
  rw [lookupD_updD, if_neg (fun hc => hk hc.symm)]

theorem lookupD_isSome_iff [DecidableEq α] (m : List (α × β)) (k : α) :
    (lookupD m k).isSome = true ↔ k ∈ m.map Prod.fst := by
  induction m with
  | nil => simp
  | cons kv t ih =>
    obtain ⟨a, b⟩ := kv
    by_cases h : a = k
    · simp [h]
    · rw [lookupD_cons, if_neg h]
      simp only [List.map_cons, List.mem_cons]
      rw [ih]
      constructor
      · exact Or.inr
      · rintro (hc | hm)
        · exact absurd hc.symm h
        · exact hm

theorem keys_map_upd [DecidableEq α] (m : List (α × β)) (k : α) (v : β) :
    (m.map fun kv => if kv.1 = k then (k, v) else kv).map Prod.fst = m.map Prod.fst := by
  induction m with
  | nil => rfl
  | cons kv t ih =>
    obtain ⟨a, b⟩ := kv
    by_cases h : a = k <;> simp [h, ih]

theorem keys_updD_mem [DecidableEq α] (m : List (α × β)) (k : α) (v : β)
    (h : k ∈ m.map Prod.fst) : (updD m k v).map Prod.fst = m.map Prod.fst := by
  unfold updD
  have hany : (m.any fun kv => kv.1 = k) = true := by
    simp only [List.any_eq_true]
    obtain ⟨kv, hkv, hfst⟩ := List.mem_map.mp h
    exact ⟨kv, hkv, by simp [hfst]⟩
  rw [if_pos hany, keys_map_upd]

theorem keys_updD_not_mem [DecidableEq α] (m : List (α × β)) (k : α) (v : β)
    (h : ¬ k ∈ m.map Prod.fst) : (updD m k v).map Prod.fst = m.map Prod.fst ++ [k] := by
  unfold updD
  have hany : (m.any fun kv => kv.1 = k) = false := by
    simp only [List.any_eq_false]
    intro kv hkv
    simp only [decide_eq_true_eq]
    intro hc
    exact h (List.mem_map.mpr ⟨kv, hkv, hc⟩)
  rw [if_neg (by simp [hany])]
  simp

theorem nodup_keys_updD [DecidableEq α] (m : List (α × β)) (k : α) (v : β)
    (h : (m.map Prod.fst).Nodup) : ((updD m k v).map Prod.fst).Nodup := by
  by_cases hk : k ∈ m.map Prod.fst
  · rw [keys_updD_mem m k v hk]; exact h
  · rw [keys_updD_not_mem m k v hk]
    simp [List.nodup_append, h, hk]

/-! ## Lemmas: accumulator updates -/

@[simp]
theorem pbcGet_pbcAppend_self (m : List (Int × List Int)) (c p : Int) :
    pbcGet (pbcAppend m c p) c = pbcGet m c ++ [p] := by
  simp [pbcGet, pbcAppend]

@[simp]
theorem pbcGet_pbcAppend_ne (m : List (Int × List Int)) (c c' p : Int) (h : c' ≠ c) :
    pbcGet (pbcAppend m c p) c' = pbcGet m c' := by
  simp [pbcGet, pbcAppend, lookupD_updD_ne _ _ _ _ h]

@[simp]
theorem statsGet_statsAppend_self (m : List (Int × CStats)) (c l hh p : Int) :
    statsGet (statsAppend m c l hh p) c =
      ⟨(statsGet m c).likes ++ [l], (statsGet m c).hashtags ++ [hh], (statsGet m c).posts ++ [p]⟩ := by
  simp [statsGet, statsAppend]

@[simp]
theorem statsGet_statsAppend_ne (m : List (Int × CStats)) (c c' l hh p : Int) (h : c' ≠ c) :
    statsGet (statsAppend m c l hh p) c' = statsGet m c' := by
  simp [statsGet, statsAppend, lookupD_updD_ne _ _ _ _ h]

theorem lookupD_pbcAppend_isSome_self (m : List (Int × List Int)) (c p : Int) :
    (lookupD (pbcAppend m c p) c).isSome = true := by
  simp [pbcAppend]

/-! ## Lemmas: taxonomy parser -/

theorem create_taxonomy_lines_append (ls ls' : List PyStr) :
    create_taxonomy_lines (ls ++ ls') =
      ls'.foldl
        (fun out line =>
          match parseTaxLine line with
          | some (k, v) => updD out k v
          | none => out)
        (create_taxonomy_lines ls) := by
  simp [create_taxonomy_lines, List.foldl_append]

theorem taxFold_untouched (ls : List PyStr) (m : List (Int × PyStr)) (k : Int)
    (h : ∀ ℓ ∈ ls, ∀ v, parseTaxLine ℓ ≠ some (k, v)) :
    lookupD
      (ls.foldl
        (fun out line =>
          match parseTaxLine line with
          | some (k, v) => updD out k v
          | none => out)
        m) k = lookupD m k := by
  induction ls generalizing m with
  | nil => rfl
  | cons ℓ t ih =>
    simp only [List.foldl_cons]
    cases hp : parseTaxLine ℓ with
    | none => exact ih _ (fun x hx => h x (List.mem_cons_of_mem _ hx))
    | some kv =>
      obtain ⟨k2, v2⟩ := kv
      have hk2 : k ≠ k2 := by
        intro hc
        exact h ℓ (List.mem_cons_self _ _) v2 (by rw [hp, hc])
      rw [ih _ (fun x hx => h x (List.mem_cons_of_mem _ hx)),
        lookupD_updD_ne _ _ _ _ hk2]

theorem create_taxonomy_lines_skip (pre : List PyStr) (ℓ : PyStr) (post : List PyStr)
    (h : parseTaxLine ℓ = none) :
    create_taxonomy_lines (pre ++ ℓ :: post) = create_taxonomy_lines (pre ++ post) := by
  rw [create_taxonomy_lines_append, create_taxonomy_lines_append]
  simp [h]

theorem create_taxonomy_lines_contributes (pre : List PyStr) (ℓ : PyStr) (post : List PyStr)
    (k : Int) (v : PyStr) (hp : parseTaxLine ℓ = some (k, v))
    (hpost : ∀ ℓ2 ∈ post, ∀ v2, parseTaxLine ℓ2 ≠ some (k, v2)) :
    lookupD (create_taxonomy_lines (pre ++ ℓ :: post)) k = some v := by
  rw [create_taxonomy_lines_append]
  simp only [List.foldl_cons, hp]
  rw [taxFold_untouched post _ k hpost, lookupD_updD_self]

theorem trimChars_cons_ws (c : Char) (l : PyStr) (h : c.isWhitespace = true) :
    trimChars (c :: l) = trimChars l := by
  simp [trimChars, List.dropWhile_cons, h]

theorem parseTaxLine_digit (ℓ : PyStr) (c : Char) (cs : PyStr)
    (htrim : trimChars ℓ = c :: cs) (hc : c.isDigit = true) (hlen : 3 < cs.length) :
    parseTaxLine ℓ = some (((c.toNat : Int) - 48), trimChars (cs.drop 3)) := by
  unfold parseTaxLine
  rw [htrim]
  have hne : (c :: cs) ≠ ([] : PyStr) := by simp
  have hl : (c :: cs).length > 4 := by simp; omega
  rw [if_pos ⟨hne, hl⟩]
  simp [hc]

theorem nodup_keys_taxFold (ls : List PyStr) (m : List (Int × PyStr))
    (h : (m.map Prod.fst).Nodup) :
    ((ls.foldl
        (fun out line =>
          match parseTaxLine line with
          | some (k, v) => updD out k v
          | none => out)
        m).map Prod.fst).Nodup := by
  induction ls generalizing m with
  | nil => exact h
  | cons ℓ t ih =>
    simp only [List.foldl_cons]
    cases hp : parseTaxLine ℓ with
    | none => exact ih _ h
    | some kv => exact ih _ (nodup_keys_updD _ _ _ h)

theorem create_taxonomy_keys_nodup (s : PyStr) :
    ((create_taxonomy s).map Prod.fst).Nodup := by
  unfold create_taxonomy create_taxonomy_lines
  exact nodup_keys_taxFold _ [] List.nodup_nil

theorem parseTaxLine_none_short (ℓ : PyStr) (h : (trimChars ℓ).length ≤ 4) :
    parseTaxLine ℓ = none := by
  unfold parseTaxLine
  rw [if_neg]
  intro ⟨_, hl⟩
  omega

theorem parseTaxLine_none_nondigit (ℓ : PyStr) (c : Char) (cs : PyStr)
    (htrim : trimChars ℓ = c :: cs) (hc : c.isDigit = false) :
    parseTaxLine ℓ = none := by
  unfold parseTaxLine
  rw [htrim]
  by_cases h : (c :: cs) ≠ ([] : PyStr) ∧ (c :: cs).length > 4
  · rw [if_pos h]
    simp [hc]
  · rw [if_neg h]

/-- C3: in `create_taxonomy`, each non-blank (stripped) line of length > 4
whose leading character is a decimal digit contributes an entry keyed by that
digit; for lines of the documented shape `digit ++ ". - " ++ name` the stored
value is the stripped category name; lines that are too short or whose
leading character is not a digit are skipped and contribute no entry at
all. -/
theorem C3_taxonomy_line_parsing :
    (∀ pre ℓ post,
        ((trimChars ℓ).length ≤ 4 ∨ ∃ c cs, trimChars ℓ = c :: cs ∧ c.isDigit = false) →
        create_taxonomy_lines (pre ++ ℓ :: post) = create_taxonomy_lines (pre ++ post))
    ∧ (∀ pre ℓ post c cs,
        trimChars ℓ = c :: cs → c.isDigit = true → 3 < cs.length →
        (∀ ℓ2 ∈ post, ∀ v2, parseTaxLine ℓ2 ≠ some (((c.toNat : Int) - 48), v2)) →
        lookupD (create_taxonomy_lines (pre ++ ℓ :: post)) ((c.toNat : Int) - 48)
          = some (trimChars (cs.drop 3)))
    ∧ (∀ pre ℓ post c name,
        trimChars ℓ = c :: '.' :: ' ' :: '-' :: ' ' :: name → c.isDigit = true →
        (∀ ℓ2 ∈ post, ∀ v2, parseTaxLine ℓ2 ≠ some (((c.toNat : Int) - 48), v2)) →
        lookupD (create_taxonomy_lines (pre ++ ℓ :: post)) ((c.toNat : Int) - 48)
          = some (trimChars name)) := by
  refine ⟨?_, ?_, ?_⟩
  · intro pre ℓ post h
    refine create_taxonomy_lines_skip pre ℓ post ?_
    rcases h with h | ⟨c, cs, htrim, hc⟩
    · exact parseTaxLine_none_short ℓ h
    · exact parseTaxLine_none_nondigit ℓ c cs htrim hc
  · intro pre ℓ post c cs htrim hc hlen hpost
    exact create_taxonomy_lines_contributes pre ℓ post _ _
      (parseTaxLine_digit ℓ c cs htrim hc hlen) hpost
  · intro pre ℓ post c name htrim hc hpost
    have h2 := create_taxonomy_lines_contributes pre ℓ post _ _
      (parseTaxLine_digit ℓ c ('.' :: ' ' :: '-' :: ' ' :: name) htrim hc (by simp)) hpost
    rw [h2]
    have : ('.' :: ' ' :: '-' :: ' ' :: name).drop 3 = ' ' :: name := rfl
    rw [this, trimChars_cons_ws ' ' name rfl]

/-- Witness for C3 at concrete lines: the well-formed line `"1. - Apples"`
yields the entry `1 ↦ "Apples"`, and a non-digit-leading line contributes
nothing. -/
theorem C3_taxonomy_line_parsing_witness :
    lookupD (create_taxonomy_lines ([] ++ "1. - Apples".data :: [])) (('1'.toNat : Int) - 48)
        = some (trimChars "Apples".data)
      ∧ create_taxonomy_lines (["2. - Bags".data] ++ "x. - junk".data :: [])
        = create_taxonomy_lines (["2. - Bags".data] ++ []) := by
  constructor
  · exact C3_taxonomy_line_parsing.2.2 [] _ [] '1' "Apples".data (by decide) (by decide)
      (fun ℓ2 h2 => absurd h2 (List.not_mem_nil _))
  · exact C3_taxonomy_line_parsing.1 ["2. - Bags".data] _ []
      (Or.inr ⟨'x', ". - junk".data, by decide, by decide⟩)

/-! ## Lemmas: row ingestion -/

theorem accumulate_untouched (st : IngestState) (p l h : Int) (cl : List Int) :
    (accumulate st p l h cl).post_data = st.post_data
    ∧ (accumulate st p l h cl).taxonomy = st.taxonomy
    ∧ (accumulate st p l h cl).tax_parses = st.tax_parses := by
  induction cl generalizing st with
  | nil => exact ⟨rfl, rfl, rfl⟩
  | cons a t ih =>
    simp only [accumulate, List.foldl_cons] at *
    exact ih _

theorem accumulate_pbcGet (st : IngestState) (p l h : Int) (cl : List Int) (c : Int) :
    pbcGet (accumulate st p l h cl).posts_by_cluster c =
      pbcGet st.posts_by_cluster c ++ List.replicate (cl.count c) p := by
  induction cl generalizing st with
  | nil => simp [accumulate]
  | cons a t ih =>
    simp only [accumulate, List.foldl_cons] at *
    rw [ih]
    by_cases hac : a = c
    · subst hac
      simp [List.count_cons, List.replicate_succ, List.append_assoc]
    · have : c ≠ a := fun hc => hac hc.symm
      simp [List.count_cons, hac, pbcGet_pbcAppend_ne _ _ _ _ this]

theorem accumulate_statsGet (st : IngestState) (p l h : Int) (cl : List Int) (c : Int) :
    statsGet (accumulate st p l h cl).cluster_stats c =
      ⟨(statsGet st.cluster_stats c).likes ++ List.replicate (cl.count c) l,
       (statsGet st.cluster_stats c).hashtags ++ List.replicate (cl.count c) h,
       (statsGet st.cluster_stats c).posts ++ List.replicate (cl.count c) p⟩ := by
  induction cl generalizing st with
  | nil => simp [accumulate]
  | cons a t ih =>
    simp only [accumulate, List.foldl_cons] at *
    rw [ih]
    by_cases hac : a = c
    · subst hac
      simp [List.count_cons, List.replicate_succ, List.append_assoc]
    · have : c ≠ a := fun hc => hac hc.symm
      simp [List.count_cons, hac, statsGet_statsAppend_ne _ _ _ _ _ _ this]

theorem processRow_pbcGet (st : IngestState) (r : Row) (c : Int) :
    pbcGet (processRow st r).posts_by_cluster c =
      pbcGet st.posts_by_cluster c ++ rowPosts r c := by
  cases hp : pyInt r.post_number with
  | none => simp [processRow, rowPosts, parsedInts, hp]
  | some p =>
    cases hl : pyInt r.likes with
    | none => simp [processRow, rowPosts, parsedInts, hp, hl]
    | some l =>
      cases hh : pyInt r.number_of_hashtags with
      | none => simp [processRow, rowPosts, parsedInts, hp, hl, hh]
      | some h =>
        by_cases hcomma : ',' ∈ trimChars r.types_of_patterns
        · by_cases hp1 : p = 1 <;>
            simp [processRow, rowPosts, parsedInts, resolvedClusters, hp, hl, hh, hcomma,
              hp1, accumulate_pbcGet]
        · cases hs : pyInt (trimChars r.types_of_patterns) with
          | none =>
            by_cases hp1 : p = 1 <;>
              simp [processRow, rowPosts, parsedInts, resolvedClusters, hp, hl, hh, hcomma,
                hs, hp1]
          | some c2 =>
            by_cases hp1 : p = 1 <;>
              simp [processRow, rowPosts, parsedInts, resolvedClusters, hp, hl, hh, hcomma,
                hs, hp1, accumulate_pbcGet]

theorem processRow_statsGet (st : IngestState) (r : Row) (c : Int) :
    statsGet (processRow st r).cluster_stats c =
      ⟨(statsGet st.cluster_stats c).likes ++ rowLikes r c,
       (statsGet st.cluster_stats c).hashtags ++ rowHashtags r c,
       (statsGet st.cluster_stats c).posts ++ rowPosts r c⟩ := by
  cases hp : pyInt r.post_number with
  | none => simp [processRow, rowPosts, rowLikes, rowHashtags, parsedInts, hp]
  | some p =>
    cases hl : pyInt r.likes with
    | none => simp [processRow, rowPosts, rowLikes, rowHashtags, parsedInts, hp, hl]
    | some l =>
      cases hh : pyInt r.number_of_hashtags with
      | none => simp [processRow, rowPosts, rowLikes, rowHashtags, parsedInts, hp, hl, hh]
      | some h =>
        by_cases hcomma : ',' ∈ trimChars r.types_of_patterns
        · by_cases hp1 : p = 1 <;>
            simp [processRow, rowPosts, rowLikes, rowHashtags, parsedInts, resolvedClusters,
              hp, hl, hh, hcomma, hp1, accumulate_statsGet]
        · cases hs : pyInt (trimChars r.types_of_patterns) with
          | none =>
            by_cases hp1 : p = 1 <;>
              simp [processRow, rowPosts, rowLikes, rowHashtags, parsedInts, resolvedClusters,
                hp, hl, hh, hcomma, hs, hp1]
          | some c2 =>
            by_cases hp1 : p = 1 <;>
              simp [processRow, rowPosts, rowLikes, rowHashtags, parsedInts, resolvedClusters,
                hp, hl, hh, hcomma, hs, hp1, accumulate_statsGet]

theorem processRow_post_data (st : IngestState) (r : Row) (p2 : Int) :
    lookupD (processRow st r).post_data p2 =
      if keyRow r p2 = true then rowRecord r else lookupD st.post_data p2 := by
  cases hp : pyInt r.post_number with
  | none => simp [processRow, keyRow, rowRecord, parsedInts, hp]
  | some p =>
    cases hl : pyInt r.likes with
    | none => simp [processRow, keyRow, rowRecord, parsedInts, hp, hl]
    | some l =>
      cases hh : pyInt r.number_of_hashtags with
      | none => simp [processRow, keyRow, rowRecord, parsedInts, hp, hl, hh]
      | some h =>
        by_cases hpp : p = p2
        · subst hpp
          by_cases hcomma : ',' ∈ trimChars r.types_of_patterns
          · by_cases hp1 : p = 1 <;>
              simp [processRow, keyRow, rowRecord, recordOf, parsedInts, resolvedClusters,
                hp, hl, hh, hcomma, hp1, accumulate_untouched, lookupD_updD]
          · cases hs : pyInt (trimChars r.types_of_patterns) with
            | none =>
              by_cases hp1 : p = 1 <;>
                simp [processRow, keyRow, rowRecord, recordOf, parsedInts, resolvedClusters,
                  hp, hl, hh, hcomma, hs, hp1, lookupD_updD]
            | some c2 =>
              by_cases hp1 : p = 1 <;>
                simp [processRow, keyRow, rowRecord, recordOf, parsedInts, resolvedClusters,
                  hp, hl, hh, hcomma, hs, hp1, accumulate_untouched, lookupD_updD]
        · have hne : p2 ≠ p := fun hc => hpp hc.symm
          have hkr : keyRow r p2 = false := by
            simp [keyRow, parsedInts, hp, hl, hh, hpp]
          rw [hkr, if_neg (by simp)]
          by_cases hp1 : p = 1
          · subst hp1
            by_cases hcomma : ',' ∈ trimChars r.types_of_patterns
            · simp [processRow, hp, hl, hh, hcomma, (accumulate_untouched _ _ _ _ _).1,
                lookupD_updD_ne _ _ _ _ hne]
            · cases hs : pyInt (trimChars r.types_of_patterns) with
              | none => simp [processRow, hp, hl, hh, hcomma, hs, lookupD_updD_ne _ _ _ _ hne]
              | some c2 =>
                simp [processRow, hp, hl, hh, hcomma, hs, (accumulate_untouched _ _ _ _ _).1,
                  lookupD_updD_ne _ _ _ _ hne]
          · by_cases hcomma : ',' ∈ trimChars r.types_of_patterns
            · simp [processRow, hp, hl, hh, hcomma, hp1, (accumulate_untouched _ _ _ _ _).1,
                lookupD_updD_ne _ _ _ _ hne]
            · cases hs : pyInt (trimChars r.types_of_patterns) with
              | none =>
                simp [processRow, hp, hl, hh, hcomma, hs, hp1, lookupD_updD_ne _ _ _ _ hne]
              | some c2 =>
                simp [processRow, hp, hl, hh, hcomma, hs, hp1,
                  (accumulate_untouched _ _ _ _ _).1, lookupD_updD_ne _ _ _ _ hne]

theorem processRow_taxonomy (st : IngestState) (r : Row) :
    (processRow st r).taxonomy =
      if qual1 r = true then create_taxonomy r.taxonomy else st.taxonomy := by
  cases hp : pyInt r.post_number with
  | none => simp [processRow, qual1, parsedInts, hp]
  | some p =>
    cases hl : pyInt r.likes with
    | none => simp [processRow, qual1, parsedInts, hp, hl]
    | some l =>
      cases hh : pyInt r.number_of_hashtags with
      | none => simp [processRow, qual1, parsedInts, hp, hl, hh]
      | some h =>
        by_cases hcomma : ',' ∈ trimChars r.types_of_patterns
        · by_cases hp1 : p = 1 <;>
            simp [processRow, qual1, parsedInts, hp, hl, hh, hcomma, hp1,
              (accumulate_untouched _ _ _ _ _).2.1]
        · cases hs : pyInt (trimChars r.types_of_patterns) with
          | none =>
            by_cases hp1 : p = 1 <;>
              simp [processRow, qual1, parsedInts, hp, hl, hh, hcomma, hs, hp1]
          | some c2 =>
            by_cases hp1 : p = 1 <;>
              simp [processRow, qual1, parsedInts, hp, hl, hh, hcomma, hs, hp1,
                (accumulate_untouched _ _ _ _ _).2.1]

theorem processRow_tax_parses (st : IngestState) (r : Row) :
    (processRow st r).tax_parses = st.tax_parses + (if qual1 r = true then 1 else 0) := by
  cases hp : pyInt r.post_number with
  | none => simp [processRow, qual1, parsedInts, hp]
  | some p =>
    cases hl : pyInt r.likes with
    | none => simp [processRow, qual1, parsedInts, hp, hl]
    | some l =>
      cases hh : pyInt r.number_of_hashtags with
      | none => simp [processRow, qual1, parsedInts, hp, hl, hh]
      | some h =>
        by_cases hcomma : ',' ∈ trimChars r.types_of_patterns
        · by_cases hp1 : p = 1 <;>
            simp [processRow, qual1, parsedInts, hp, hl, hh, hcomma, hp1,
              (accumulate_untouched _ _ _ _ _).2.2]
        · cases hs : pyInt (trimChars r.types_of_patterns) with
          | none =>
            by_cases hp1 : p = 1 <;>
              simp [processRow, qual1, parsedInts, hp, hl, hh, hcomma, hs, hp1]
          | some c2 =>
            by_cases hp1 : p = 1 <;>
              simp [processRow, qual1, parsedInts, hp, hl, hh, hcomma, hs, hp1,
                (accumulate_untouched _ _ _ _ _).2.2]

theorem getLast?_cons_opt (a : α) (l : List α) :
    (a :: l).getLast? = match l.getLast? with | some x => some x | none => some a := by
  induction l generalizing a with
  | nil => rfl
  | cons b t ih =>
    rw [List.getLast?_cons_cons, ih b]
    cases h : t.getLast? <;> simp

theorem foldl_last_filter {α : Type u} {β : Type v} (q : α → Bool) (f : α → β)
    (rows : List α) (init : β) :
    rows.foldl (fun acc r => if q r = true then f r else acc) init =
      (match (rows.filter q).getLast? with
       | some r => f r
       | none => init) := by
  induction rows generalizing init with
  | nil => rfl
  | cons r t ih =>
    rw [List.foldl_cons, ih]
    by_cases hq : q r = true
    · rw [List.filter_cons_of_pos (by simpa using hq), if_pos hq, getLast?_cons_opt]
      cases h : (t.filter q).getLast? <;> simp
    · rw [List.filter_cons_of_neg (by simpa using hq), if_neg hq]

theorem ingest_pbcGet (rows : List Row) (c : Int) (st : IngestState) :
    pbcGet (rows.foldl processRow st).posts_by_cluster c =
      pbcGet st.posts_by_cluster c ++ (rows.map (fun r => rowPosts r c)).flatten := by
  induction rows generalizing st with
  | nil => simp
  | cons r t ih =>
    rw [List.foldl_cons, ih, processRow_pbcGet]
    simp [List.append_assoc]

theorem ingest_statsGet (rows : List Row) (c : Int) (st : IngestState) :
    statsGet (rows.foldl processRow st).cluster_stats c =
      ⟨(statsGet st.cluster_stats c).likes ++ (rows.map (fun r => rowLikes r c)).flatten,
       (statsGet st.cluster_stats c).hashtags ++ (rows.map (fun r => rowHashtags r c)).flatten,
       (statsGet st.cluster_stats c).posts ++ (rows.map (fun r => rowPosts r c)).flatten⟩ := by
  induction rows generalizing st with
  | nil => simp
  | cons r t ih =>
    rw [List.foldl_cons, ih, processRow_statsGet]
    simp [List.append_assoc]

theorem ingest_post_data (rows : List Row) (p2 : Int) (st : IngestState) :
    lookupD (rows.foldl processRow st).post_data p2 =
      rows.foldl (fun acc r => if keyRow r p2 = true then rowRecord r else acc)
        (lookupD st.post_data p2) := by
  induction rows generalizing st with
  | nil => rfl
  | cons r t ih =>
    rw [List.foldl_cons, List.foldl_cons, ih, processRow_post_data]

theorem ingest_taxonomy (rows : List Row) (st : IngestState) :
    (rows.foldl processRow st).taxonomy =
      rows.foldl (fun acc r => if qual1 r = true then create_taxonomy r.taxonomy else acc)
        st.taxonomy := by
  induction rows generalizing st with
  | nil => rfl
  | cons r t ih =>
    rw [List.foldl_cons, List.foldl_cons, ih, processRow_taxonomy]

theorem ingest_tax_parses (rows : List Row) (st : IngestState) :
    (rows.foldl processRow st).tax_parses = st.tax_parses + rows.countP qual1 := by
  induction rows generalizing st with
  | nil => simp
  | cons r t ih =>
    rw [List.foldl_cons, ih, processRow_tax_parses, List.countP_cons]
    by_cases hq : qual1 r = true <;> simp [hq] <;> omega

/-- C9 (counterexample): on a CSV with two successfully parsed rows that both
have post number 1, `create_taxonomy` is invoked twice — not once — and the
mapping kept is the one parsed from the second (last) such row, which differs
from the first row's. -/
theorem C9_counterexample :
    (create_network_graph [c9row1, c9row2]).tax_parses = 2
    ∧ (create_network_graph [c9row1, c9row2]).taxonomy = create_taxonomy c9row2.taxonomy
    ∧ create_taxonomy c9row2.taxonomy ≠ create_taxonomy c9row1.taxonomy := by
  refine ⟨by decide, by decide, by decide⟩

/-- C9 (amended): taxonomy parsing is invoked once per successfully parsed
row whose post number equals 1 (so it is re-parsed for every such row, and
never parsed for any other row); the mapping that survives ingestion — the
one handed to node creation — is the one from the last such row, and the
empty mapping when no such row exists.  In particular, when at most one row
carries post number 1 the parse happens at most once, from that row. -/
theorem C9_taxonomy_parse_per_qualifying_row (rows : List Row) :
    (create_network_graph rows).tax_parses = rows.countP qual1
    ∧ (create_network_graph rows).taxonomy =
        (match (rows.filter qual1).getLast? with
         | some r => create_taxonomy r.taxonomy
         | none => []) := by
  constructor
  · simpa [initState] using ingest_tax_parses rows initState
  · rw [create_network_graph, ingest_taxonomy,
      foldl_last_filter qual1 (fun r => create_taxonomy r.taxonomy) rows _]
    cases h : (rows.filter qual1).getLast? <;> rfl

/-- C10: ingestion appends to a category's accumulators once per occurrence
in every successfully parsed row — a post number appearing on several rows
(or listed twice in one row) is counted once per occurrence, not once per
distinct post — while the post-record map keeps only the last row's record
for a given post number.  Concretely, with post 7 ingested from two rows of
category 3, node 3 counts 3 posts (`[1, 7, 7]`, only 2 distinct) and totals
sum over rows, and `post_data[7]` is the second row's record. -/
theorem C10_duplicate_post_numbers_count_rows :
    (∀ (rows : List Row) (c : Int),
        pbcGet (create_network_graph rows).posts_by_cluster c
          = (rows.map (fun r => rowPosts r c)).flatten
        ∧ (statsGet (create_network_graph rows).cluster_stats c).likes
            = (rows.map (fun r => rowLikes r c)).flatten
        ∧ (statsGet (create_network_graph rows).cluster_stats c).hashtags
            = (rows.map (fun r => rowHashtags r c)).flatten)
    ∧ (∀ (rows : List Row) (p2 : Int),
        lookupD (create_network_graph rows).post_data p2 =
          (match (rows.filter (fun r => keyRow r p2)).getLast? with
           | some r => rowRecord r
           | none => none))
    ∧ pbcGet (create_network_graph [c10row1, c10row2, c10row3]).posts_by_cluster 3 = [1, 7, 7]
    ∧ ((graphNodes (create_network_graph [c10row1, c10row2, c10row3]).taxonomy
          (create_network_graph [c10row1, c10row2, c10row3]).posts_by_cluster
          (create_network_graph [c10row1, c10row2, c10row3]).cluster_stats).map
        (fun n => (n.id, n.posts_count, n.total_likes, n.total_hashtags))) = [(3, 3, 35, 4)]
    ∧ lookupD (create_network_graph [c10row1, c10row2, c10row3]).post_data 7
        = some ⟨"capC".data, "urlC".data, 20, 2, [3]⟩ := by
  refine ⟨?_, ?_, by decide, by decide, by decide⟩
  · intro rows c
    refine ⟨?_, ?_, ?_⟩
    · simpa [initState, pbcGet] using ingest_pbcGet rows c initState
    · have h := ingest_statsGet rows c initState
      rw [create_network_graph, h]
      simp [initState, statsGet, emptyStats]
    · have h := ingest_statsGet rows c initState
      rw [create_network_graph, h]
      simp [initState, statsGet, emptyStats]
  · intro rows p2
    rw [create_network_graph, ingest_post_data,
      show lookupD initState.post_data p2 = none from rfl,
      foldl_last_filter (fun r => keyRow r p2) rowRecord rows none]
    cases h : (rows.filter (fun r => keyRow r p2)).getLast? <;> rfl

/-- C2 (counterexample): a row whose comma-free category field fails to parse
is *not* absent from every structure — its post record was already stored at
line 69 (with an empty cluster list) before the failing membership parse, so
it does appear in the post-record map (while accumulators stay empty). -/
theorem C2_counterexample :
    lookupD (create_network_graph [c2row]).post_data 5
        = some ⟨"cap".data, "url".data, 10, 2, []⟩
    ∧ (create_network_graph [c2row]).posts_by_cluster = []
    ∧ (create_network_graph [c2row]).cluster_stats = [] := by
  refine ⟨by decide, by decide, by decide⟩

/-- C2 (amended): for a row whose required integers parse, whose category
field contains no comma and fails to parse as an integer, the rest of the row
processing is abandoned: the row contributes to no category accumulator, but
the post record — written before membership parsing — remains in the
post-record map with an empty cluster list. -/
theorem C2_unparseable_single_category (st : IngestState) (r : Row) (p l h : Int)
    (hparse : parsedInts r = some (p, l, h))
    (hnc : ¬ ',' ∈ trimChars r.types_of_patterns)
    (hfail : pyInt (trimChars r.types_of_patterns) = none) :
    (processRow st r).posts_by_cluster = st.posts_by_cluster
    ∧ (processRow st r).cluster_stats = st.cluster_stats
    ∧ lookupD (processRow st r).post_data p = some ⟨r.caption, r.url, l, h, []⟩ := by
  cases hp : pyInt r.post_number with
  | none => simp [parsedInts, hp] at hparse
  | some p0 =>
    cases hl : pyInt r.likes with
    | none => simp [parsedInts, hp, hl] at hparse
    | some l0 =>
      cases hh : pyInt r.number_of_hashtags with
      | none => simp [parsedInts, hp, hl, hh] at hparse
      | some h0 =>
        simp only [parsedInts, hp, hl, hh, Option.some.injEq, Prod.mk.injEq] at hparse
        obtain ⟨hp0, hl0, hh0⟩ := hparse
        subst hp0; subst hl0; subst hh0
        by_cases hp1 : p0 = 1 <;>
          simp [processRow, hp, hl, hh, hnc, hfail, hp1]

/-- Witness for C2's amended statement at the concrete malformed row. -/
theorem C2_unparseable_single_category_witness :
    (processRow initState c2row).posts_by_cluster = initState.posts_by_cluster
    ∧ (processRow initState c2row).cluster_stats = initState.cluster_stats
    ∧ lookupD (processRow initState c2row).post_data 5
        = some ⟨c2row.caption, c2row.url, 10, 2, []⟩ :=
  C2_unparseable_single_category initState c2row 5 10 2 (by decide) (by decide) (by decide)

/-! ## Lemmas: pairs and edges -/

theorem connectsB_mk (a b : Int) (w : ℚ) (sh : Option (List Int)) (si : Option ℚ)
    (u v : Int) : connectsB ⟨a, b, w, sh, si⟩ u v = orientB (a, b) u v := rfl

theorem orientB_swap (a b u v : Int) : orientB (a, b) u v = orientB (u, v) a b := by
  rw [orientB, orientB]
  simp only [decide_eq_decide]
  constructor <;> rintro (⟨h1, h2⟩ | ⟨h1, h2⟩)
  · exact Or.inl ⟨h1.symm, h2.symm⟩
  · exact Or.inr ⟨h2.symm, h1.symm⟩
  · exact Or.inl ⟨h1.symm, h2.symm⟩
  · exact Or.inr ⟨h2.symm, h1.symm⟩

@[simp]
theorem adjacentB_nil (u v : Int) : adjacentB [] u v = false := rfl

theorem adjacentB_append (es es2 : List Edge) (u v : Int) :
    adjacentB (es ++ es2) u v = (adjacentB es u v || adjacentB es2 u v) := by
  simp [adjacentB, List.any_append]

theorem adjacentB_singleton (e : Edge) (u v : Int) :
    adjacentB [e] u v = connectsB e u v := by
  simp [adjacentB]

theorem addSharedEdge_not_adj (es : List Edge) (u v : Int) (w : ℚ) (s : List Int)
    (h : adjacentB es u v = false) :
    addSharedEdge es u v w s = es ++ [⟨u, v, w, some s, none⟩] := by
  rw [addSharedEdge, if_neg (by simp [h])]

theorem addSimEdge_not_adj (es : List Edge) (u v : Int) (w q : ℚ)
    (h : adjacentB es u v = false) :
    addSimEdge es u v w q = es ++ [⟨u, v, w, none, some q⟩] := by
  rw [addSimEdge, if_neg (by simp [h])]

theorem mem_allPairs {q : α × α} : ∀ {l : List α}, q ∈ allPairs l → q.1 ∈ l ∧ q.2 ∈ l := by
  intro l
  induction l with
  | nil => intro h; cases h
  | cons x xs ih =>
    intro h
    rw [allPairs, List.mem_append] at h
    rcases h with h | h
    · obtain ⟨y, hy, hq⟩ := List.mem_map.mp h
      subst hq
      exact ⟨List.mem_cons_self _ _, List.mem_cons_of_mem _ hy⟩
    · obtain ⟨h1, h2⟩ := ih h
      exact ⟨List.mem_cons_of_mem _ h1, List.mem_cons_of_mem _ h2⟩

theorem allPairs_ne {l : List α} (hnd : l.Nodup) :
    ∀ q ∈ allPairs l, q.1 ≠ q.2 := by
  induction l with
  | nil => intro q h; cases h
  | cons x xs ih =>
    intro q hq
    rw [allPairs, List.mem_append] at hq
    rcases hq with hq | hq
    · obtain ⟨y, hy, hq⟩ := List.mem_map.mp hq
      subst hq
      intro hc
      have hxy : x = y := hc
      exact (List.nodup_cons.mp hnd).1 (hxy ▸ hy)
    · exact ih (List.nodup_cons.mp hnd).2 q hq

theorem allPairs_pairwise {l : List Int} (hnd : l.Nodup) :
    (allPairs l).Pairwise (fun q q2 => orientB q2 q.1 q.2 = false) := by
  induction l with
  | nil => exact List.Pairwise.nil
  | cons x xs ih =>
    obtain ⟨hx, hxs⟩ := List.nodup_cons.mp hnd
    rw [allPairs, List.pairwise_append]
    refine ⟨?_, ih hxs, ?_⟩
    · rw [List.pairwise_map]
      refine hxs.pairwise_of_forall_ne ?_
      intro y1 hy1 y2 hy2 hne
      simp only [orientB, decide_eq_false_iff_not]
      rintro (⟨-, h2⟩ | ⟨h1, -⟩)
      · exact hne h2.symm
      · exact hx (by rw [show x = y1 from h1]; exact hy1)
    · intro q1 hq1 q2 hq2
      obtain ⟨y, hy, hq⟩ := List.mem_map.mp hq1
      subst hq
      have h2 := mem_allPairs hq2
      simp only [orientB, decide_eq_false_iff_not]
      rintro (⟨h1, -⟩ | ⟨-, h1⟩)
      · exact hx (h1 ▸ h2.1)
      · exact hx (h1 ▸ h2.2)

/-! ## Lemmas: shared-post intersections -/

theorem mem_interList (x : Int) (p1 p2 : List Int) :
    x ∈ interList p1 p2 ↔ x ∈ p1 ∧ x ∈ p2 := by
  simp [interList, List.mem_filter]

theorem interList_nodup (p1 p2 : List Int) : (interList p1 p2).Nodup :=
  (List.nodup_dedup p1).filter _

theorem interList_eq_nil_iff (p1 p2 : List Int) :
    interList p1 p2 = [] ↔ ¬ ∃ x, x ∈ p1 ∧ x ∈ p2 := by
  rw [List.eq_nil_iff_forall_not_mem]
  constructor
  · rintro h ⟨x, hx⟩
    exact h x ((mem_interList x p1 p2).mpr hx)
  · intro h x hx
    exact h ⟨x, (mem_interList x p1 p2).mp hx⟩

theorem interList_length (p1 p2 : List Int) :
    (interList p1 p2).length = (p1.toFinset ∩ p2.toFinset).card := by
  have hts : (interList p1 p2).toFinset = p1.toFinset ∩ p2.toFinset := by
    ext x
    simp [mem_interList]
  rw [← hts, List.toFinset_card_of_nodup (interList_nodup p1 p2)]

theorem interList_length_comm (p1 p2 : List Int) :
    (interList p1 p2).length = (interList p2 p1).length := by
  rw [interList_length, interList_length, Finset.inter_comm]

/-! ## Lemmas: node creation -/

theorem mkNode_id (pbc : List (Int × List Int)) (stats : List (Int × CStats))
    (c : Int) (n : PyStr) : (mkNode pbc stats c n).id = c := rfl

theorem graphIds_eq (tax : List (Int × PyStr)) (pbc : List (Int × List Int))
    (stats : List (Int × CStats)) :
    graphIds tax pbc stats = (tax.map Prod.fst).filter (fun c => (lookupD pbc c).isSome) := by
  rw [graphIds]
  induction tax with
  | nil => rfl
  | cons kv t ih =>
    obtain ⟨a, b⟩ := kv
    by_cases h : (lookupD pbc a).isSome = true <;>
      simp [graphNodes, List.filterMap_cons, h, mkNode_id] <;>
      simpa [graphNodes] using ih

theorem graphIds_nodup (tax : List (Int × PyStr)) (pbc : List (Int × List Int))
    (stats : List (Int × CStats)) (htax : (tax.map Prod.fst).Nodup) :
    (graphIds tax pbc stats).Nodup := by
  rw [graphIds_eq]
  exact htax.filter _

theorem mem_graphIds (tax : List (Int × PyStr)) (pbc : List (Int × List Int))
    (stats : List (Int × CStats)) (c : Int) :
    c ∈ graphIds tax pbc stats ↔ c ∈ tax.map Prod.fst ∧ (lookupD pbc c).isSome = true := by
  rw [graphIds_eq, List.mem_filter]

theorem mem_graphNodes (tax : List (Int × PyStr)) (pbc : List (Int × List Int))
    (stats : List (Int × CStats)) (n : Node) (h : n ∈ graphNodes tax pbc stats) :
    ∃ cid name, (cid, name) ∈ tax ∧ (lookupD pbc cid).isSome = true
      ∧ n = mkNode pbc stats cid name := by
  rw [graphNodes] at h
  obtain ⟨kv, hkv, hn⟩ := List.mem_filterMap.mp h
  by_cases hp : (lookupD pbc kv.1).isSome = true
  · rw [if_pos hp] at hn
    exact ⟨kv.1, kv.2, hkv, hp, (Option.some.inj hn).symm⟩
  · rw [if_neg hp] at hn
    cases hn

/-! ## Lemmas: counting edges per unordered pair -/

theorem connectsB_symm (e : Edge) (u v : Int) : connectsB e u v = connectsB e v u := by
  rw [connectsB, connectsB, decide_eq_decide]
  exact or_comm

theorem adjacentB_symm (es : List Edge) (u v : Int) :
    adjacentB es u v = adjacentB es v u := by
  unfold adjacentB
  congr 1
  funext e
  exact connectsB_symm e u v

theorem adjacentB_iff_exists (es : List Edge) (u v : Int) :
    adjacentB es u v = true ↔ ∃ e ∈ es, connectsB e u v = true := by
  simp [adjacentB, List.any_eq_true]

theorem countP_eq_mem (xs : List Int) (hnd : xs.Nodup) (v : Int) :
    xs.countP (fun y => decide (y = v)) = if v ∈ xs then 1 else 0 := by
  induction xs with
  | nil => simp
  | cons a t ih =>
    obtain ⟨ha, ht⟩ := List.nodup_cons.mp hnd
    rw [List.countP_cons]
    by_cases hav : a = v
    · subst hav
      simp [ih ht, ha]
    · have hva : ¬ v = a := fun hc => hav hc.symm
      simp [ih ht, hav, hva]

theorem countP_orient_zero (l : List Int) (u v : Int) (h : ¬ (u ∈ l ∧ v ∈ l)) :
    (allPairs l).countP (fun q => orientB q u v) = 0 := by
  rw [List.countP_eq_zero]
  intro q hq
  have hm := mem_allPairs hq
  simp only [orientB, decide_eq_true_eq]
  rintro (⟨h1, h2⟩ | ⟨h1, h2⟩)
  · exact h ⟨h1 ▸ hm.1, h2 ▸ hm.2⟩
  · exact h ⟨h2 ▸ hm.2, h1 ▸ hm.1⟩

theorem countP_orient_cons_head (x : Int) (xs : List Int) (v : Int) (hx : ¬ x ∈ xs) :
    (xs.map (fun y => ((x, y) : Int × Int))).countP (fun q => orientB q x v)
      = xs.countP (fun y => decide (y = v)) := by
  rw [List.countP_map]
  congr 1
  funext y
  simp only [Function.comp, orientB]
  by_cases hyv : y = v <;> by_cases hxv : x = v <;> simp [hyv, hxv]

theorem countP_orient_eq_one (l : List Int) (hnd : l.Nodup) (u v : Int)
    (hu : u ∈ l) (hv : v ∈ l) (huv : u ≠ v) :
    (allPairs l).countP (fun q => orientB q u v) = 1 := by
  induction l with
  | nil => cases hu
  | cons x xs ih =>
    obtain ⟨hx, hxs⟩ := List.nodup_cons.mp hnd
    rw [allPairs, List.countP_append]
    by_cases hxu : x = u
    · subst hxu
      have hvxs : v ∈ xs := by
        rcases List.mem_cons.mp hv with h | h
        · exact absurd h.symm huv
        · exact h
      have h1 : (xs.map (fun y => ((x, y) : Int × Int))).countP (fun q => orientB q x v)
          = 1 := by
        rw [countP_orient_cons_head x xs v hx, countP_eq_mem xs hxs v, if_pos hvxs]
      rw [h1, countP_orient_zero xs x v (fun hc => hx hc.1)]
    · by_cases hxv : x = v
      · subst hxv
        have huxs : u ∈ xs := by
          rcases List.mem_cons.mp hu with h | h
          · exact absurd h.symm (fun hc => huv hc.symm)
          · exact h
        have h1 : (xs.map (fun y => ((x, y) : Int × Int))).countP (fun q => orientB q u x)
            = 1 := by
          have := countP_orient_cons_head x xs u hx
          rw [show (fun q => orientB q u x) = (fun q => orientB q x u) from ?_, this,
            countP_eq_mem xs hxs u, if_pos huxs]
          funext q
          rw [orientB, orientB, decide_eq_decide]
          exact or_comm
        rw [h1, countP_orient_zero xs u x (fun hc => hx hc.2)]
      · have h0 : (xs.map (fun y => ((x, y) : Int × Int))).countP (fun q => orientB q u v)
            = 0 := by
          rw [List.countP_eq_zero]
          intro q hq
          obtain ⟨y, hy, hqe⟩ := List.mem_map.mp hq
          subst hqe
          simp only [orientB, decide_eq_true_eq]
          rintro (⟨h1, -⟩ | ⟨h1, -⟩)
          · exact hxu h1
          · exact hxv h1
        have huxs : u ∈ xs := by
          rcases List.mem_cons.mp hu with h | h
          · exact absurd h.symm hxu
          · exact h
        have hvxs : v ∈ xs := by
          rcases List.mem_cons.mp hv with h | h
          · exact absurd h.symm hxv
          · exact h
        rw [h0, ih hxs huxs hvxs]

theorem countP_orient_le_one (l : List Int) (hnd : l.Nodup) (u v : Int) :
    (allPairs l).countP (fun q => orientB q u v) ≤ 1 := by
  by_cases huv : u = v
  · subst huv
    have h0 : (allPairs l).countP (fun q => orientB q u u) = 0 := by
      rw [List.countP_eq_zero]
      intro q hq
      have hne := allPairs_ne hnd q hq
      simp only [orientB, decide_eq_true_eq]
      rintro (⟨h1, h2⟩ | ⟨h1, h2⟩) <;> exact hne (h1.trans h2.symm)
    omega
  · by_cases hm : u ∈ l ∧ v ∈ l
    · rw [countP_orient_eq_one l hnd u v hm.1 hm.2 huv]
    · rw [countP_orient_zero l u v hm]
      omega

theorem countP_and_le (l : List α) (p g : α → Bool) :
    l.countP (fun a => p a && g a) ≤ l.countP p := by
  induction l with
  | nil => simp
  | cons a t ih =>
    rw [List.countP_cons, List.countP_cons]
    by_cases hp : p a = true <;> by_cases hg : g a = true <;> simp [hp, hg] <;> omega

theorem countP_and_eq_of_forall (l : List α) (p g : α → Bool)
    (h : ∀ a ∈ l, p a = true → g a = true) :
    l.countP (fun a => p a && g a) = l.countP p := by
  induction l with
  | nil => rfl
  | cons a t ih =>
    rw [List.countP_cons, List.countP_cons,
      ih (fun x hx => h x (List.mem_cons_of_mem _ hx))]
    by_cases hp : p a = true
    · simp [hp, h a (List.mem_cons_self _ _) hp]
    · simp [hp]

theorem countP_connects_filterMap (f : (Int × Int) → Option Edge)
    (hf : ∀ q e, f q = some e → e.a = q.1 ∧ e.b = q.2) (ps : List (Int × Int)) (u v : Int) :
    (ps.filterMap f).countP (fun e => connectsB e u v)
      = ps.countP (fun q => orientB q u v && (f q).isSome) := by
  induction ps with
  | nil => rfl
  | cons q t ih =>
    rw [List.countP_cons]
    cases hq : f q with
    | none =>
      rw [List.filterMap_cons_none hq, ih]
      simp [hq]
    | some e =>
      obtain ⟨h1, h2⟩ := hf q e hq
      rw [List.filterMap_cons_some hq, List.countP_cons, ih]
      have : connectsB e u v = orientB q u v := by
        rw [connectsB, orientB, decide_eq_decide, h1, h2]
      rw [this]
      simp [hq]

/-! ## Lemmas: the two edge passes as filterMaps -/

theorem filterMap_congr_mem {f g : α → Option β} :
    ∀ {l : List α}, (∀ a ∈ l, f a = g a) → l.filterMap f = l.filterMap g := by
  intro l
  induction l with
  | nil => intro _; rfl
  | cons a t ih =>
    intro h
    rw [List.filterMap_cons, List.filterMap_cons, h a (List.mem_cons_self _ _),
      ih (fun x hx => h x (List.mem_cons_of_mem _ hx))]

theorem dirEdge_some {pbc : List (Int × List Int)} {q : Int × Int} {e : Edge}
    (h : dirEdge pbc q = some e) :
    (interList (pbcGet pbc q.1) (pbcGet pbc q.2)).isEmpty = false
    ∧ e = ⟨q.1, q.2, ((interList (pbcGet pbc q.1) (pbcGet pbc q.2)).length : ℚ),
        some (interList (pbcGet pbc q.1) (pbcGet pbc q.2)), none⟩ := by
  rw [dirEdge] at h
  by_cases hs : (interList (pbcGet pbc q.1) (pbcGet pbc q.2)).isEmpty = true
  · rw [if_pos hs] at h
    cases h
  · rw [if_neg hs] at h
    exact ⟨by simpa using hs, (Option.some.inj h).symm⟩

theorem dirEdge_isSome_iff (pbc : List (Int × List Int)) (q : Int × Int) :
    (dirEdge pbc q).isSome = true
      ↔ interList (pbcGet pbc q.1) (pbcGet pbc q.2) ≠ [] := by
  rw [dirEdge]
  by_cases hs : (interList (pbcGet pbc q.1) (pbcGet pbc q.2)).isEmpty = true
  · rw [if_pos hs]
    simp [List.isEmpty_iff.mp hs]
  · rw [if_neg hs]
    simp only [Option.isSome_some, true_iff]
    intro hc
    exact hs (by simp [hc])

theorem simEdge_some {nodes : List Node} {es : List Edge} {q : Int × Int} {e : Edge}
    (h : simEdge nodes es q = some e) :
    adjacentB es q.1 q.2 = false
    ∧ simScore (nodeAvg nodes q.1) (nodeAvg nodes q.2) > 7 / 10
    ∧ e = ⟨q.1, q.2, 1 / 2, none,
        some (simScore (nodeAvg nodes q.1) (nodeAvg nodes q.2))⟩ := by
  rw [simEdge] at h
  by_cases ha : adjacentB es q.1 q.2 = true
  · rw [if_pos ha] at h
    cases h
  · rw [if_neg ha] at h
    by_cases hgt : simScore (nodeAvg nodes q.1) (nodeAvg nodes q.2) > 7 / 10
    · rw [if_pos hgt] at h
      exact ⟨by simpa using ha, hgt, (Option.some.inj h).symm⟩
    · rw [if_neg hgt] at h
      cases h

theorem dirFold_eq (pbc : List (Int × List Int)) :
    ∀ (ps : List (Int × Int)) (es : List Edge),
      (∀ q ∈ ps, adjacentB es q.1 q.2 = false) →
      ps.Pairwise (fun q q2 => orientB q2 q.1 q.2 = false) →
      ps.foldl
        (fun es q =>
          let s := interList (pbcGet pbc q.1) (pbcGet pbc q.2)
          if s.isEmpty then es else addSharedEdge es q.1 q.2 (s.length : ℚ) s) es
        = es ++ ps.filterMap (dirEdge pbc) := by
  intro ps
  induction ps with
  | nil => intro es _ _; simp
  | cons q t ih =>
    intro es hfresh hpw
    obtain ⟨hhead, htail⟩ := List.pairwise_cons.mp hpw
    rw [List.foldl_cons]
    by_cases hs : (interList (pbcGet pbc q.1) (pbcGet pbc q.2)).isEmpty = true
    · have hstep : (let s := interList (pbcGet pbc q.1) (pbcGet pbc q.2)
          if s.isEmpty then es else addSharedEdge es q.1 q.2 (s.length : ℚ) s) = es := by
        simp only [hs, if_true]
      rw [hstep, ih es (fun x hx => hfresh x (List.mem_cons_of_mem _ hx)) htail,
        List.filterMap_cons_none (by rw [dirEdge]; simp [hs])]
    · have hf := hfresh q (List.mem_cons_self _ _)
      have hstep : (let s := interList (pbcGet pbc q.1) (pbcGet pbc q.2)
          if s.isEmpty then es else addSharedEdge es q.1 q.2 (s.length : ℚ) s)
          = es ++ [⟨q.1, q.2, ((interList (pbcGet pbc q.1) (pbcGet pbc q.2)).length : ℚ),
              some (interList (pbcGet pbc q.1) (pbcGet pbc q.2)), none⟩] := by
        simp only [hs, if_false]
        exact addSharedEdge_not_adj es q.1 q.2 _ _ hf
      rw [hstep]
      have hfresh2 : ∀ x ∈ t, adjacentB
          (es ++ [⟨q.1, q.2, ((interList (pbcGet pbc q.1) (pbcGet pbc q.2)).length : ℚ),
            some (interList (pbcGet pbc q.1) (pbcGet pbc q.2)), none⟩]) x.1 x.2 = false := by
        intro x hx
        rw [adjacentB_append, hfresh x (List.mem_cons_of_mem _ hx), adjacentB_singleton,
          connectsB_mk, orientB_swap]
        exact hhead x hx
      have hdq : dirEdge pbc q = some ⟨q.1, q.2,
          ((interList (pbcGet pbc q.1) (pbcGet pbc q.2)).length : ℚ),
          some (interList (pbcGet pbc q.1) (pbcGet pbc q.2)), none⟩ := by
        rw [dirEdge]
        simp [hs]
      rw [ih _ hfresh2 htail, List.filterMap_cons_some hdq, List.append_assoc]
      rfl

theorem directPass_eq (ids : List Int) (pbc : List (Int × List Int)) (hnd : ids.Nodup) :
    directPass ids pbc = (allPairs ids).filterMap (dirEdge pbc) := by
  rw [directPass]
  have h := dirFold_eq pbc (allPairs ids) [] (fun q _ => rfl) (allPairs_pairwise hnd)
  simpa using h

theorem simFold_eq (nodes : List Node) :
    ∀ (ps : List (Int × Int)) (es : List Edge),
      ps.Pairwise (fun q q2 => orientB q2 q.1 q.2 = false) →
      ps.foldl
        (fun es q =>
          if adjacentB es q.1 q.2 then es
          else
            let s := simScore (nodeAvg nodes q.1) (nodeAvg nodes q.2)
            if s > 7 / 10 then addSimEdge es q.1 q.2 (1 / 2) s else es) es
        = es ++ ps.filterMap (simEdge nodes es) := by
  intro ps
  induction ps with
  | nil => intro es _; simp
  | cons q t ih =>
    intro es hpw
    obtain ⟨hhead, htail⟩ := List.pairwise_cons.mp hpw
    rw [List.foldl_cons]
    by_cases ha : adjacentB es q.1 q.2 = true
    · have hstep : (if adjacentB es q.1 q.2 then es
          else
            let s := simScore (nodeAvg nodes q.1) (nodeAvg nodes q.2)
            if s > 7 / 10 then addSimEdge es q.1 q.2 (1 / 2) s else es) = es := by
        rw [if_pos ha]
      rw [hstep, ih es htail, List.filterMap_cons_none (by rw [simEdge, if_pos ha])]
    · have ha2 : adjacentB es q.1 q.2 = false := by simpa using ha
      by_cases hgt : simScore (nodeAvg nodes q.1) (nodeAvg nodes q.2) > 7 / 10
      · have hstep : (if adjacentB es q.1 q.2 then es
            else
              let s := simScore (nodeAvg nodes q.1) (nodeAvg nodes q.2)
              if s > 7 / 10 then addSimEdge es q.1 q.2 (1 / 2) s else es)
            = es ++ [⟨q.1, q.2, 1 / 2, none,
                some (simScore (nodeAvg nodes q.1) (nodeAvg nodes q.2))⟩] := by
          rw [if_neg ha]
          simp only [hgt, if_true]
          exact addSimEdge_not_adj es q.1 q.2 _ _ ha2
        rw [hstep, ih _ htail]
        have hcong : t.filterMap (simEdge nodes
            (es ++ [⟨q.1, q.2, 1 / 2, none,
              some (simScore (nodeAvg nodes q.1) (nodeAvg nodes q.2))⟩]))
            = t.filterMap (simEdge nodes es) := by
          refine filterMap_congr_mem ?_
          intro x hx
          rw [simEdge, simEdge, adjacentB_append, adjacentB_singleton, connectsB_mk,
            orientB_swap, hhead x hx, Bool.or_false]
        have hsq : simEdge nodes es q = some ⟨q.1, q.2, 1 / 2, none,
            some (simScore (nodeAvg nodes q.1) (nodeAvg nodes q.2))⟩ := by
          rw [simEdge, if_neg ha]
          simp [hgt]
        rw [hcong, List.filterMap_cons_some hsq, List.append_assoc]
        rfl
      · have hstep : (if adjacentB es q.1 q.2 then es
            else
              let s := simScore (nodeAvg nodes q.1) (nodeAvg nodes q.2)
              if s > 7 / 10 then addSimEdge es q.1 q.2 (1 / 2) s else es) = es := by
          rw [if_neg ha]
          simp only [hgt, if_false]
        rw [hstep, ih es htail,
          List.filterMap_cons_none (by rw [simEdge, if_neg ha]; simp [hgt])]

theorem simPass_eq (ids : List Int) (nodes : List Node) (es0 : List Edge)
    (hnd : ids.Nodup) :
    simPass ids nodes es0 = es0 ++ (allPairs ids).filterMap (simEdge nodes es0) :=
  simFold_eq nodes (allPairs ids) es0 (allPairs_pairwise hnd)

/-! ## Lemmas: build_graph case analysis -/

theorem build_graph_eq (tax : List (Int × PyStr)) (pbc : List (Int × List Int))
    (stats : List (Int × CStats)) :
    build_graph tax pbc stats =
      (match graphNodes tax pbc stats with
       | [] => none
       | _ :: _ =>
         if isConnB (graphIds tax pbc stats) (directPass (graphIds tax pbc stats) pbc) = false
             ∧ 1 < (graphIds tax pbc stats).length then
           some ⟨graphNodes tax pbc stats,
             simPass (graphIds tax pbc stats) (graphNodes tax pbc stats)
               (directPass (graphIds tax pbc stats) pbc)⟩
         else some ⟨graphNodes tax pbc stats, directPass (graphIds tax pbc stats) pbc⟩) := rfl

theorem build_graph_cons (tax : List (Int × PyStr)) (pbc : List (Int × List Int))
    (stats : List (Int × CStats)) (hne : graphNodes tax pbc stats ≠ []) :
    build_graph tax pbc stats =
      (if isConnB (graphIds tax pbc stats) (directPass (graphIds tax pbc stats) pbc) = false
          ∧ 1 < (graphIds tax pbc stats).length then
        some ⟨graphNodes tax pbc stats,
          simPass (graphIds tax pbc stats) (graphNodes tax pbc stats)
            (directPass (graphIds tax pbc stats) pbc)⟩
      else some ⟨graphNodes tax pbc stats, directPass (graphIds tax pbc stats) pbc⟩) := by
  rw [build_graph_eq]
  rcases hnn : graphNodes tax pbc stats with - | ⟨n, ns⟩
  · exact absurd hnn hne
  · rfl

theorem build_graph_none_iff (tax : List (Int × PyStr)) (pbc : List (Int × List Int))
    (stats : List (Int × CStats)) :
    build_graph tax pbc stats = none ↔ graphNodes tax pbc stats = [] := by
  constructor
  · intro h
    by_contra hne
    rw [build_graph_cons tax pbc stats hne] at h
    split at h <;> cases h
  · intro h
    rw [build_graph_eq, h]

theorem build_graph_cases {tax : List (Int × PyStr)} {pbc : List (Int × List Int)}
    {stats : List (Int × CStats)} {G : Graph} (hG : build_graph tax pbc stats = some G) :
    G.nodes = graphNodes tax pbc stats
    ∧ (G.edges = directPass (graphIds tax pbc stats) pbc
       ∨ (G.edges = simPass (graphIds tax pbc stats) (graphNodes tax pbc stats)
            (directPass (graphIds tax pbc stats) pbc)
          ∧ isConnB (graphIds tax pbc stats) (directPass (graphIds tax pbc stats) pbc) = false
          ∧ 1 < (graphIds tax pbc stats).length)) := by
  by_cases hne : graphNodes tax pbc stats = []
  · rw [(build_graph_none_iff tax pbc stats).mpr hne] at hG
    cases hG
  · rw [build_graph_cons tax pbc stats hne] at hG
    split at hG
    · rename_i hcond
      cases Option.some.inj hG
      exact ⟨rfl, Or.inr ⟨rfl, hcond.1, hcond.2⟩⟩
    · cases Option.some.inj hG
      exact ⟨rfl, Or.inl rfl⟩

theorem build_graph_of_connected {tax : List (Int × PyStr)} {pbc : List (Int × List Int)}
    {stats : List (Int × CStats)} (hne : graphNodes tax pbc stats ≠ [])
    (hconn : isConnB (graphIds tax pbc stats) (directPass (graphIds tax pbc stats) pbc)
      = true) :
    build_graph tax pbc stats
      = some ⟨graphNodes tax pbc stats, directPass (graphIds tax pbc stats) pbc⟩ := by
  rw [build_graph_cons tax pbc stats hne,
    if_neg (fun hc => by rw [hconn] at hc; cases hc.1)]

theorem nodeIds_of_build {tax : List (Int × PyStr)} {pbc : List (Int × List Int)}
    {stats : List (Int × CStats)} {G : Graph} (hG : build_graph tax pbc stats = some G) :
    nodeIds G = graphIds tax pbc stats := by
  rw [nodeIds, (build_graph_cases hG).1]
  rfl

theorem adjacentB_of_orient {q : Int × Int} {u v : Int} (es : List Edge)
    (h : orientB q u v = true) : adjacentB es q.1 q.2 = adjacentB es u v := by
  rcases (by simpa [orientB] using h : (q.1 = u ∧ q.2 = v) ∨ (q.1 = v ∧ q.2 = u)) with
    ⟨h1, h2⟩ | ⟨h1, h2⟩
  · rw [h1, h2]
  · rw [h1, h2, adjacentB_symm]

theorem simScore_comm (a b : ℚ) : simScore a b = simScore b a := by
  rw [simScore, simScore, abs_sub_comm, max_comm a b]

theorem addSharedEdge_sim_none {es : List Edge} {u v : Int} {w : ℚ} {s : List Int}
    (h : ∀ e ∈ es, e.similarity = none) :
    ∀ e ∈ addSharedEdge es u v w s, e.similarity = none := by
  intro e he
  rw [addSharedEdge] at he
  split at he
  · obtain ⟨e0, he0, hee⟩ := List.mem_map.mp he
    subst hee
    split
    · exact h e0 he0
    · exact h e0 he0
  · rcases List.mem_append.mp he with h2 | h2
    · exact h e h2
    · rw [List.mem_singleton.mp h2]

theorem directPass_sim_none (ids : List Int) (pbc : List (Int × List Int)) :
    ∀ e ∈ directPass ids pbc, e.similarity = none := by
  rw [directPass]
  have hgen : ∀ (ps : List (Int × Int)) (es : List Edge),
      (∀ e ∈ es, e.similarity = none) →
      ∀ e ∈ ps.foldl
        (fun es q =>
          let s := interList (pbcGet pbc q.1) (pbcGet pbc q.2)
          if s.isEmpty then es else addSharedEdge es q.1 q.2 (s.length : ℚ) s) es,
        e.similarity = none := by
    intro ps
    induction ps with
    | nil => intro es h; exact h
    | cons q t ih =>
      intro es h
      rw [List.foldl_cons]
      by_cases hs : (interList (pbcGet pbc q.1) (pbcGet pbc q.2)).isEmpty = true
      · have : (let s := interList (pbcGet pbc q.1) (pbcGet pbc q.2)
            if s.isEmpty then es else addSharedEdge es q.1 q.2 (s.length : ℚ) s) = es := by
          simp only [hs, if_true]
        rw [this]
        exact ih es h
      · have : (let s := interList (pbcGet pbc q.1) (pbcGet pbc q.2)
            if s.isEmpty then es else addSharedEdge es q.1 q.2 (s.length : ℚ) s)
            = addSharedEdge es q.1 q.2
                ((interList (pbcGet pbc q.1) (pbcGet pbc q.2)).length : ℚ)
                (interList (pbcGet pbc q.1) (pbcGet pbc q.2)) := by
          simp [hs]
        rw [this]
        exact ih _ (addSharedEdge_sim_none h)
  exact hgen (allPairs ids) [] (fun e he => absurd he (List.not_mem_nil e))

theorem mem_directPass {ids : List Int} {pbc : List (Int × List Int)} {e : Edge}
    (hnd : ids.Nodup) (he : e ∈ directPass ids pbc) :
    ∃ q ∈ allPairs ids, dirEdge pbc q = some e := by
  rw [directPass_eq ids pbc hnd] at he
  exact List.mem_filterMap.mp he

theorem dirEdge_endpoints : ∀ (q : Int × Int) (e : Edge),
    dirEdge pbc q = some e → e.a = q.1 ∧ e.b = q.2 := by
  intro q e hq
  obtain ⟨-, he⟩ := dirEdge_some hq
  rw [he]
  exact ⟨rfl, rfl⟩

theorem simEdge_endpoints {nodes : List Node} {es : List Edge} : ∀ (q : Int × Int) (e : Edge),
    simEdge nodes es q = some e → e.a = q.1 ∧ e.b = q.2 := by
  intro q e hq
  obtain ⟨-, -, he⟩ := simEdge_some hq
  rw [he]
  exact ⟨rfl, rfl⟩

/-- C1: on structurally valid input where no category qualifies for a node,
`build_graph` does not return an empty graph: `nx.is_connected` raises
`NetworkXPointlessConcept` on the 0-node graph at line 182 (modelled as
`none`), both for an empty taxonomy and for a taxonomy whose categories all
lack posts. -/
theorem C1_build_graph_raises_on_empty_graph :
    build_graph [] [] [] = none ∧ build_graph c1tax [] [] = none := ⟨rfl, rfl⟩

/-- C8: in every graph the builder returns (given the Python-dict invariant
that taxonomy keys are unique), each unordered node pair carries at most one
edge, and every edge is of exactly one kind: either it has a `shared_posts`
payload and no `similarity` payload, or vice versa. -/
theorem C8_at_most_one_edge_and_kind (tax : List (Int × PyStr))
    (pbc : List (Int × List Int)) (stats : List (Int × CStats)) (G : Graph)
    (htax : (tax.map Prod.fst).Nodup) (hG : build_graph tax pbc stats = some G) :
    (∀ u v : Int, G.edges.countP (fun e => connectsB e u v) ≤ 1)
    ∧ ∀ e ∈ G.edges, (e.shared.isSome = true ∧ e.similarity = none)
        ∨ (e.shared = none ∧ e.similarity.isSome = true) := by
  have hnd : (graphIds tax pbc stats).Nodup := graphIds_nodup tax pbc stats htax
  obtain ⟨hnodes, hedges⟩ := build_graph_cases hG
  constructor
  · intro u v
    have hdle : (directPass (graphIds tax pbc stats) pbc).countP
        (fun e => connectsB e u v) ≤ 1 := by
      rw [directPass_eq _ _ hnd,
        countP_connects_filterMap _ (fun q e => dirEdge_endpoints q e)]
      exact le_trans (countP_and_le _ _ _) (countP_orient_le_one _ hnd u v)
    rcases hedges with he | ⟨he, -, -⟩
    · rw [he]
      exact hdle
    · rw [he, simPass_eq _ _ _ hnd, List.countP_append]
      by_cases hadj : adjacentB (directPass (graphIds tax pbc stats) pbc) u v = true
      · have hs0 : ((allPairs (graphIds tax pbc stats)).filterMap
            (simEdge (graphNodes tax pbc stats)
              (directPass (graphIds tax pbc stats) pbc))).countP
            (fun e => connectsB e u v) = 0 := by
          rw [countP_connects_filterMap _ (fun q e => simEdge_endpoints q e),
            List.countP_eq_zero]
          intro q hq
          simp only [Bool.and_eq_true, not_and]
          intro ho hsome
          rw [simEdge, if_pos ((adjacentB_of_orient _ ho).trans hadj)] at hsome
          cases hsome
        rw [hs0]
        simpa using hdle
      · have hd0 : (directPass (graphIds tax pbc stats) pbc).countP
            (fun e => connectsB e u v) = 0 := by
          rw [List.countP_eq_zero]
          intro e he2 hc
          exact hadj ((adjacentB_iff_exists _ u v).mpr ⟨e, he2, hc⟩)
        have hsle : ((allPairs (graphIds tax pbc stats)).filterMap
            (simEdge (graphNodes tax pbc stats)
              (directPass (graphIds tax pbc stats) pbc))).countP
            (fun e => connectsB e u v) ≤ 1 := by
          rw [countP_connects_filterMap _ (fun q e => simEdge_endpoints q e)]
          exact le_trans (countP_and_le _ _ _) (countP_orient_le_one _ hnd u v)
        rw [hd0]
        simpa using hsle
  · intro e he
    have hdir : ∀ e2 ∈ directPass (graphIds tax pbc stats) pbc,
        (e2.shared.isSome = true ∧ e2.similarity = none)
          ∨ (e2.shared = none ∧ e2.similarity.isSome = true) := by
      intro e2 he2
      obtain ⟨q, hq, hqe⟩ := mem_directPass hnd he2
      obtain ⟨-, hEe⟩ := dirEdge_some hqe
      rw [hEe]
      exact Or.inl ⟨rfl, rfl⟩
    rcases hedges with hE | ⟨hE, -, -⟩
    · rw [hE] at he
      exact hdir e he
    · rw [hE, simPass_eq _ _ _ hnd] at he
      rcases List.mem_append.mp he with h2 | h2
      · exact hdir e h2
      · obtain ⟨q, hq, hqe⟩ := List.mem_filterMap.mp h2
        obtain ⟨-, -, hEe⟩ := simEdge_some hqe
        rw [hEe]
        exact Or.inr ⟨rfl, rfl⟩

/-- C4: (given unique taxonomy keys) for every pair of distinct nodes of the
built graph whose member-post sets intersect, exactly one edge connects them;
it is a shared edge whose payload is exactly the intersection set, whose
weight is the intersection's cardinality, and which carries no similarity
payload; distinct node pairs with empty intersection get no shared edge. -/
theorem C4_direct_edges (tax : List (Int × PyStr)) (pbc : List (Int × List Int))
    (stats : List (Int × CStats)) (G : Graph)
    (htax : (tax.map Prod.fst).Nodup) (hG : build_graph tax pbc stats = some G)
    (u v : Int) (hu : u ∈ nodeIds G) (hv : v ∈ nodeIds G) (huv : u ≠ v) :
    ((∃ x, x ∈ pbcGet pbc u ∧ x ∈ pbcGet pbc v) →
        G.edges.countP (fun e => connectsB e u v) = 1
        ∧ ∀ e ∈ G.edges, connectsB e u v = true →
            ∃ s, e.shared = some s
              ∧ (∀ x : Int, x ∈ s ↔ x ∈ pbcGet pbc u ∧ x ∈ pbcGet pbc v)
              ∧ e.weight = (((pbcGet pbc u).toFinset ∩ (pbcGet pbc v).toFinset).card : ℚ)
              ∧ e.similarity = none)
    ∧ ((¬ ∃ x, x ∈ pbcGet pbc u ∧ x ∈ pbcGet pbc v) →
        G.edges.countP (fun e => connectsB e u v && e.shared.isSome) = 0) := by
  have hnd : (graphIds tax pbc stats).Nodup := graphIds_nodup tax pbc stats htax
  obtain ⟨hnodes, hedges⟩ := build_graph_cases hG
  rw [nodeIds_of_build hG] at hu hv
  constructor
  · intro hex
    have hiso : ∀ q ∈ allPairs (graphIds tax pbc stats), orientB q u v = true →
        (dirEdge pbc q).isSome = true := by
      intro q hq ho
      rw [dirEdge_isSome_iff]
      rcases (by simpa [orientB] using ho :
          (q.1 = u ∧ q.2 = v) ∨ (q.1 = v ∧ q.2 = u)) with ⟨h1, h2⟩ | ⟨h1, h2⟩
      · rw [h1, h2, Ne, interList_eq_nil_iff]
        intro hc
        exact hc hex
      · rw [h1, h2, Ne, interList_eq_nil_iff]
        intro hc
        obtain ⟨x, hx1, hx2⟩ := hex
        exact hc ⟨x, hx2, hx1⟩
    have hcd : (directPass (graphIds tax pbc stats) pbc).countP
        (fun e => connectsB e u v) = 1 := by
      rw [directPass_eq _ _ hnd,
        countP_connects_filterMap _ (fun q e => dirEdge_endpoints q e),
        countP_and_eq_of_forall _ _ _ hiso]
      exact countP_orient_eq_one _ hnd u v hu hv huv
    have hadj : adjacentB (directPass (graphIds tax pbc stats) pbc) u v = true := by
      rw [adjacentB_iff_exists]
      exact List.countP_pos.mp (by rw [hcd]; exact Nat.one_pos)
    have hsimzero : ∀ q ∈ allPairs (graphIds tax pbc stats), orientB q u v = true →
        simEdge (graphNodes tax pbc stats) (directPass (graphIds tax pbc stats) pbc) q
          = none := by
      intro q hq ho
      rw [simEdge, if_pos ((adjacentB_of_orient _ ho).trans hadj)]
    have hcsim : ((allPairs (graphIds tax pbc stats)).filterMap
        (simEdge (graphNodes tax pbc stats)
          (directPass (graphIds tax pbc stats) pbc))).countP
        (fun e => connectsB e u v) = 0 := by
      rw [countP_connects_filterMap _ (fun q e => simEdge_endpoints q e),
        List.countP_eq_zero]
      intro q hq
      simp only [Bool.and_eq_true, not_and]
      intro ho hsome
      rw [hsimzero q hq ho] at hsome
      cases hsome
    have hcount : G.edges.countP (fun e => connectsB e u v) = 1 := by
      rcases hedges with he | ⟨he, -, -⟩
      · rw [he, hcd]
      · rw [he, simPass_eq _ _ _ hnd, List.countP_append, hcd, hcsim]
    refine ⟨hcount, ?_⟩
    intro e heG hconn
    have hmem : e ∈ directPass (graphIds tax pbc stats) pbc ∨
        ∃ q ∈ allPairs (graphIds tax pbc stats),
          simEdge (graphNodes tax pbc stats) (directPass (graphIds tax pbc stats) pbc) q
            = some e := by
      rcases hedges with he | ⟨he, -, -⟩
      · rw [he] at heG
        exact Or.inl heG
      · rw [he, simPass_eq _ _ _ hnd] at heG
        rcases List.mem_append.mp heG with h2 | h2
        · exact Or.inl h2
        · exact Or.inr (List.mem_filterMap.mp h2)
    rcases hmem with hdm | ⟨q, hq, hqe⟩
    · obtain ⟨q, hq, hqe⟩ := mem_directPass hnd hdm
      obtain ⟨hsne, hEe⟩ := dirEdge_some hqe
      have ho : orientB q u v = true := by
        rw [hEe, connectsB_mk] at hconn
        exact hconn
      rcases (by simpa [orientB] using ho :
          (q.1 = u ∧ q.2 = v) ∨ (q.1 = v ∧ q.2 = u)) with ⟨h1, h2⟩ | ⟨h1, h2⟩
      · refine ⟨interList (pbcGet pbc q.1) (pbcGet pbc q.2), ?_, ?_, ?_, ?_⟩
        · rw [hEe]
        · intro x
          rw [mem_interList, h1, h2]
        · rw [hEe]
          show ((interList (pbcGet pbc q.1) (pbcGet pbc q.2)).length : ℚ) = _
          rw [interList_length, h1, h2]
        · rw [hEe]
      · refine ⟨interList (pbcGet pbc q.1) (pbcGet pbc q.2), ?_, ?_, ?_, ?_⟩
        · rw [hEe]
        · intro x
          rw [mem_interList, h1, h2]
          exact and_comm
        · rw [hEe]
          show ((interList (pbcGet pbc q.1) (pbcGet pbc q.2)).length : ℚ) = _
          rw [interList_length, h1, h2, Finset.inter_comm]
        · rw [hEe]
    · obtain ⟨-, -, hEe⟩ := simEdge_some hqe
      have ho : orientB q u v = true := by
        rw [hEe, connectsB_mk] at hconn
        exact hconn
      rw [hsimzero q hq ho] at hqe
      cases hqe
  · intro hnex
    have hd0 : (directPass (graphIds tax pbc stats) pbc).countP
        (fun e => connectsB e u v && e.shared.isSome) = 0 := by
      rw [List.countP_eq_zero]
      intro e he
      obtain ⟨q, hq, hqe⟩ := mem_directPass hnd he
      obtain ⟨hsne, hEe⟩ := dirEdge_some hqe
      simp only [Bool.and_eq_true, not_and]
      intro hconn hsh
      have ho : orientB q u v = true := by
        rw [hEe, connectsB_mk] at hconn
        exact hconn
      have hnonempty : interList (pbcGet pbc q.1) (pbcGet pbc q.2) ≠ [] := by
        intro hc
        rw [hc] at hsne
        cases hsne
      rw [Ne, interList_eq_nil_iff, not_not] at hnonempty
      obtain ⟨x, hx1, hx2⟩ := hnonempty
      rcases (by simpa [orientB] using ho :
          (q.1 = u ∧ q.2 = v) ∨ (q.1 = v ∧ q.2 = u)) with ⟨h1, h2⟩ | ⟨h1, h2⟩
      · exact hnex ⟨x, h1 ▸ hx1, h2 ▸ hx2⟩
      · exact hnex ⟨x, h2 ▸ hx2, h1 ▸ hx1⟩
    rcases hedges with he | ⟨he, -, -⟩
    · rw [he, hd0]
    · rw [he, simPass_eq _ _ _ hnd, List.countP_append, hd0]
      have hs0 : ((allPairs (graphIds tax pbc stats)).filterMap
          (simEdge (graphNodes tax pbc stats)
            (directPass (graphIds tax pbc stats) pbc))).countP
          (fun e => connectsB e u v && e.shared.isSome) = 0 := by
        rw [List.countP_eq_zero]
        intro e he2
        obtain ⟨q, hq, hqe⟩ := List.mem_filterMap.mp he2
        obtain ⟨-, -, hEe⟩ := simEdge_some hqe
        rw [hEe]
        simp
      rw [hs0]

/-- C5: in the connectivity-repair pass over node pairs without an existing
edge, an edge is added iff the engagement similarity strictly exceeds 0.7,
and the added edge has fixed weight 1/2 and the similarity score as payload;
the score of two zero-average categories is 1 and that of averages 100 and
1000 is exactly 1/10. -/
theorem C5_similarity_pass (ids : List Int) (nodes : List Node) (es : List Edge)
    (hnd : ids.Nodup) (u v : Int) (hu : u ∈ ids) (hv : v ∈ ids) (huv : u ≠ v)
    (hne : adjacentB es u v = false) :
    (adjacentB (simPass ids nodes es) u v = true
      ↔ simScore (nodeAvg nodes u) (nodeAvg nodes v) > 7 / 10)
    ∧ (∀ e ∈ simPass ids nodes es, connectsB e u v = true →
        e.weight = 1 / 2 ∧ e.shared = none
          ∧ e.similarity = some (simScore (nodeAvg nodes u) (nodeAvg nodes v)))
    ∧ simScore 0 0 = 1 ∧ simScore 100 1000 = 1 / 10 := by
  have hpass := simPass_eq ids nodes es hnd
  have hscore : ∀ q : Int × Int, orientB q u v = true →
      simScore (nodeAvg nodes q.1) (nodeAvg nodes q.2)
        = simScore (nodeAvg nodes u) (nodeAvg nodes v) := by
    intro q ho
    rcases (by simpa [orientB] using ho :
        (q.1 = u ∧ q.2 = v) ∨ (q.1 = v ∧ q.2 = u)) with ⟨h1, h2⟩ | ⟨h1, h2⟩
    · rw [h1, h2]
    · rw [h1, h2, simScore_comm]
  refine ⟨⟨?_, ?_⟩, ?_, by norm_num [simScore], by norm_num [simScore]⟩
  · intro hadj
    obtain ⟨e, heM, hec⟩ := (adjacentB_iff_exists _ u v).mp hadj
    rw [hpass] at heM
    rcases List.mem_append.mp heM with h2 | h2
    · exact absurd ((adjacentB_iff_exists es u v).mpr ⟨e, h2, hec⟩) (by simp [hne])
    · obtain ⟨q, hq, hqe⟩ := List.mem_filterMap.mp h2
      obtain ⟨-, hgt, hEe⟩ := simEdge_some hqe
      have ho : orientB q u v = true := by
        rw [hEe, connectsB_mk] at hec
        exact hec
      rw [← hscore q ho]
      exact hgt
  · intro hgt
    have hpos : 0 < (allPairs ids).countP (fun q => orientB q u v) := by
      rw [countP_orient_eq_one ids hnd u v hu hv huv]
      exact Nat.one_pos
    obtain ⟨q, hq, ho⟩ := List.countP_pos.mp hpos
    have hadjq : ¬ adjacentB es q.1 q.2 = true := by
      rw [adjacentB_of_orient es ho, hne]
      simp
    have hqe : simEdge nodes es q = some ⟨q.1, q.2, 1 / 2, none,
        some (simScore (nodeAvg nodes q.1) (nodeAvg nodes q.2))⟩ := by
      rw [simEdge, if_neg hadjq]
      have hgtq : simScore (nodeAvg nodes q.1) (nodeAvg nodes q.2) > 7 / 10 := by
        rw [hscore q ho]
        exact hgt
      simp [hgtq]
    rw [adjacentB_iff_exists]
    refine ⟨⟨q.1, q.2, 1 / 2, none,
        some (simScore (nodeAvg nodes q.1) (nodeAvg nodes q.2))⟩, ?_, ?_⟩
    · rw [hpass]
      exact List.mem_append.mpr (Or.inr (List.mem_filterMap.mpr ⟨q, hq, hqe⟩))
    · rw [connectsB_mk]
      exact ho
  · intro e heM hec
    rw [hpass] at heM
    rcases List.mem_append.mp heM with h2 | h2
    · exact absurd ((adjacentB_iff_exists es u v).mpr ⟨e, h2, hec⟩) (by simp [hne])
    · obtain ⟨q, hq, hqe⟩ := List.mem_filterMap.mp h2
      obtain ⟨-, -, hEe⟩ := simEdge_some hqe
      have ho : orientB q u v = true := by
        rw [hEe, connectsB_mk] at hec
        exact hec
      rw [hEe]
      refine ⟨rfl, rfl, ?_⟩
      show some (simScore (nodeAvg nodes q.1) (nodeAvg nodes q.2)) = _
      rw [hscore q ho]

theorem c6_ids : graphIds c6tax c6pbc c6stats = [1, 2] := by decide

theorem c6_avg1 : nodeAvg (graphNodes c6tax c6pbc c6stats) 1 = 100 := by
  rw [show nodeAvg (graphNodes c6tax c6pbc c6stats) 1
    = ((100 : Int) : ℚ) / ((1 : Nat) : ℚ) from rfl]
  norm_num

theorem c6_avg2 : nodeAvg (graphNodes c6tax c6pbc c6stats) 2 = 1000 := by
  rw [show nodeAvg (graphNodes c6tax c6pbc c6stats) 2
    = ((1000 : Int) : ℚ) / ((1 : Nat) : ℚ) from rfl]
  norm_num

theorem c6_sim : simPass [1, 2] (graphNodes c6tax c6pbc c6stats) [] = [] := by
  have hnone : simEdge (graphNodes c6tax c6pbc c6stats) [] ((1 : Int), (2 : Int))
      = none := by
    have hcmp : ¬ (simScore (nodeAvg (graphNodes c6tax c6pbc c6stats) 1)
        (nodeAvg (graphNodes c6tax c6pbc c6stats) 2) > 7 / 10) := by
      rw [c6_avg1, c6_avg2]
      norm_num [simScore]
    simp [simEdge, hcmp]
  rw [simPass_eq _ _ _ (by decide),
    show allPairs ([1, 2] : List Int) = [((1 : Int), (2 : Int))] from rfl,
    List.filterMap_cons_none hnone, List.filterMap_nil, List.append_nil]

theorem c6_build : build_graph c6tax c6pbc c6stats = some c6G := by
  have hne : graphNodes c6tax c6pbc c6stats ≠ [] := by
    intro hc
    have h2 : graphIds c6tax c6pbc c6stats = [] := by
      rw [graphIds, hc]
      rfl
    rw [c6_ids] at h2
    cases h2
  rw [build_graph_cons c6tax c6pbc c6stats hne, if_pos (by decide)]
  have hsim0 : simPass (graphIds c6tax c6pbc c6stats) (graphNodes c6tax c6pbc c6stats)
      (directPass (graphIds c6tax c6pbc c6stats) c6pbc) = [] := by
    rw [c6_ids, show directPass [(1 : Int), 2] c6pbc = [] from by decide]
    exact c6_sim
  rw [hsim0]
  rfl

/-- C6: the similarity-repair pass runs only when the direct-edge graph has
more than one node and is disconnected — on an already-connected direct graph
the builder returns the direct graph unchanged (zero similarity edges), any
similarity edge in the output certifies the repair condition held, and the
pass runs only once: the final graph can still be disconnected, as on two
categories with no shared post and averages 100 vs 1000. -/
theorem C6_similarity_repair_scope :
    (∀ (tax : List (Int × PyStr)) (pbc : List (Int × List Int))
        (stats : List (Int × CStats)),
        graphNodes tax pbc stats ≠ [] →
        isConnB (graphIds tax pbc stats) (directPass (graphIds tax pbc stats) pbc)
          = true →
        build_graph tax pbc stats
          = some ⟨graphNodes tax pbc stats, directPass (graphIds tax pbc stats) pbc⟩)
    ∧ (∀ (tax : List (Int × PyStr)) (pbc : List (Int × List Int))
        (stats : List (Int × CStats)) (G : Graph),
        build_graph tax pbc stats = some G →
        (∃ e ∈ G.edges, e.similarity.isSome = true) →
        isConnB (graphIds tax pbc stats) (directPass (graphIds tax pbc stats) pbc)
            = false
          ∧ 1 < (graphIds tax pbc stats).length)
    ∧ build_graph c6tax c6pbc c6stats = some c6G
    ∧ isConnB (nodeIds c6G) c6G.edges = false
    ∧ 1 < c6G.nodes.length := by
  refine ⟨?_, ?_, c6_build, by decide, by decide⟩
  · intro tax pbc stats hne hconn
    exact build_graph_of_connected hne hconn
  · intro tax pbc stats G hG hsim
    obtain ⟨hnodes, hedges⟩ := build_graph_cases hG
    rcases hedges with he | ⟨-, h1, h2⟩
    · exfalso
      obtain ⟨e, heM, hs⟩ := hsim
      rw [he] at heM
      rw [directPass_sim_none _ _ e heM] at hs
      cases hs
    · exact ⟨h1, h2⟩

/-! ## Lemmas: the ingestion invariant for C7 -/

theorem pbcAppend_WF {m : List (Int × List Int)} {c p : Int} (h : PbcWF m) :
    PbcWF (pbcAppend m c p) := by
  intro c2 l hl
  rw [pbcAppend, lookupD_updD] at hl
  by_cases hcc : c = c2
  · rw [if_pos hcc] at hl
    cases Option.some.inj hl
    simp
  · rw [if_neg hcc] at hl
    exact h c2 l hl

theorem accumulate_WF (st : IngestState) (p l h : Int) (cl : List Int)
    (hwf : PbcWF st.posts_by_cluster) : PbcWF (accumulate st p l h cl).posts_by_cluster := by
  induction cl generalizing st with
  | nil => exact hwf
  | cons a t ih =>
    simp only [accumulate, List.foldl_cons] at *
    exact ih _ (pbcAppend_WF hwf)

theorem processRow_WF (st : IngestState) (r : Row) (hwf : PbcWF st.posts_by_cluster) :
    PbcWF (processRow st r).posts_by_cluster := by
  cases hp : pyInt r.post_number with
  | none => simpa [processRow, hp] using hwf
  | some p =>
    cases hl : pyInt r.likes with
    | none => simpa [processRow, hp, hl] using hwf
    | some l =>
      cases hh : pyInt r.number_of_hashtags with
      | none => simpa [processRow, hp, hl, hh] using hwf
      | some h =>
        by_cases hcomma : ',' ∈ trimChars r.types_of_patterns
        · by_cases hp1 : p = 1 <;>
            · simp only [processRow, hp, hl, hh]
              simp [hcomma, hp1]
              exact accumulate_WF _ _ _ _ _ hwf
        · cases hs : pyInt (trimChars r.types_of_patterns) with
          | none =>
            by_cases hp1 : p = 1 <;>
              · simp [processRow, hp, hl, hh, hcomma, hs, hp1]
                exact hwf
          | some c2 =>
            by_cases hp1 : p = 1 <;>
              · simp [processRow, hp, hl, hh, hcomma, hs, hp1]
                exact accumulate_WF _ _ _ _ _ hwf

theorem ingest_WF (rows : List Row) : PbcWF (create_network_graph rows).posts_by_cluster := by
  rw [create_network_graph]
  have hgen : ∀ (rs : List Row) (st : IngestState), PbcWF st.posts_by_cluster →
      PbcWF ((rs.foldl processRow st)).posts_by_cluster := by
    intro rs
    induction rs with
    | nil => intro st h; exact h
    | cons r t ih =>
      intro st h
      rw [List.foldl_cons]
      exact ih _ (processRow_WF st r h)
  refine hgen rows initState ?_
  intro c l hl
  cases hl

theorem lookupD_isSome_iff_pbcGet (m : List (Int × List Int)) (hwf : PbcWF m) (c : Int) :
    (lookupD m c).isSome = true ↔ pbcGet m c ≠ [] := by
  rw [pbcGet]
  cases hl : lookupD m c with
  | none => simp
  | some l => simpa using hwf c l hl

/-- C7 (counterexample): a valid CSV whose taxonomy categories all have zero
posts — the builder does not "omit them without error": it raises (none). -/
theorem C7_counterexample :
    (create_network_graph [c7row]).taxonomy.map Prod.fst = [1, 2]
    ∧ pbcGet (create_network_graph [c7row]).posts_by_cluster 1 = []
    ∧ build_graph (create_network_graph [c7row]).taxonomy
        (create_network_graph [c7row]).posts_by_cluster
        (create_network_graph [c7row]).cluster_stats = none := by
  refine ⟨by decide, by decide, by decide⟩

/-- C7 (amended): whenever the builder returns a graph on pipeline input
(at least one taxonomy category has a post), a node exists iff its category
id is in the parsed taxonomy and its accumulator has at least one member
post; no node has zero posts.  (When no category qualifies the builder
raises instead of returning the empty graph — see the counterexample.) -/
theorem C7_nodes_iff (rows : List Row) (G : Graph)
    (hG : build_graph (create_network_graph rows).taxonomy
        (create_network_graph rows).posts_by_cluster
        (create_network_graph rows).cluster_stats = some G) :
    (∀ c : Int, c ∈ nodeIds G ↔
        (c ∈ ((create_network_graph rows).taxonomy.map Prod.fst)
          ∧ pbcGet (create_network_graph rows).posts_by_cluster c ≠ []))
    ∧ ∀ n ∈ G.nodes, 1 ≤ n.posts_count ∧ n.posts ≠ [] := by
  have hwf := ingest_WF rows
  constructor
  · intro c
    rw [nodeIds_of_build hG, mem_graphIds, lookupD_isSome_iff_pbcGet _ hwf c]
  · intro n hn
    rw [(build_graph_cases hG).1] at hn
    obtain ⟨cid, name, htax2, hsome, hne⟩ := mem_graphNodes _ _ _ _ hn
    have hpne := (lookupD_isSome_iff_pbcGet _ hwf cid).mp hsome
    subst hne
    refine ⟨?_, hpne⟩
    show 1 ≤ (pbcGet (create_network_graph rows).posts_by_cluster cid).length
    have := List.length_pos.mpr hpne
    omega

/-- Witness for C7's amended statement: on the one-category pipeline example
the builder returns a graph and the node-existence iff holds at category 1. -/
theorem C7_nodes_iff_witness :
    (1 : Int) ∈ nodeIds c7G ↔
      ((1 : Int) ∈ ((create_network_graph [c7okrow]).taxonomy.map Prod.fst)
        ∧ pbcGet (create_network_graph [c7okrow]).posts_by_cluster 1 ≠ []) :=
  (C7_nodes_iff [c7okrow] c7G rfl).1 1

/-- Witness for C6 at a concrete connected input: two categories sharing a
post build a connected direct graph and the builder returns it unchanged. -/
theorem C6_similarity_repair_scope_witness :
    build_graph c8tax c8pbc c8stats
      = some ⟨graphNodes c8tax c8pbc c8stats,
          directPass (graphIds c8tax c8pbc c8stats) c8pbc⟩ :=
  C6_similarity_repair_scope.1 c8tax c8pbc c8stats (by decide) (by decide)

/-- Witness for C4 at a concrete built graph: nodes 1 and 2 share post 1 and
are connected by exactly one edge. -/
theorem C4_direct_edges_witness :
    c8G.edges.countP (fun e => connectsB e 1 2) = 1 :=
  ((C4_direct_edges c8tax c8pbc c8stats c8G (by decide)
      (build_graph_of_connected (by decide) (by decide)) 1 2 (by decide) (by decide)
      (by decide)).1 ⟨1, by decide, by decide⟩).1

/-- Witness for C8 at the same concrete built graph. -/
theorem C8_at_most_one_edge_and_kind_witness :
    c8G.edges.countP (fun e => connectsB e 1 2) ≤ 1 :=
  (C8_at_most_one_edge_and_kind c8tax c8pbc c8stats c8G (by decide)
      (build_graph_of_connected (by decide) (by decide))).1 1 2

/-- Witness for C5 at concrete nodes with equal averages. -/
theorem C5_similarity_pass_witness :
    (adjacentB (simPass [1, 2] c5nodes []) 1 2 = true
      ↔ simScore (nodeAvg c5nodes 1) (nodeAvg c5nodes 2) > 7 / 10)
    ∧ simScore 0 0 = 1 :=
  ⟨(C5_similarity_pass [1, 2] c5nodes [] (by decide) 1 2 (by decide) (by decide)
      (by decide) rfl).1,
   (C5_similarity_pass [1, 2] c5nodes [] (by decide) 1 2 (by decide) (by decide)
      (by decide) rfl).2.2.1⟩

end GarmentNet
